import Mathlib

/-!
# Verification of the OpenClaw tool-call firewall core

This file gives a shallow embedding, in Lean 4, of the decision-relevant
parts of the `openclaw-firewall` TypeScript sources:

* the policy decision engine (`normalizeToolName`, `normalizeToolRule`,
  `buildPolicyIndex`, `evaluatePolicy`, `buildReason`) from
  `packages/core/src/policy.ts`;
* the pre-call pipeline decision composition (`overrideDecision`,
  `decisionRank`, the exec-delegate rewrite, path-guard and rate-limit
  override application) from `packages/openclaw/src/handlers.ts`;
* the approval store and approval resolution (`resolveApproval`,
  `buildApprovalId`, `buildAskReason`) from `handlers.ts` / `storage.ts`;
* the `/firewall approve` chat command (`approveRequest`) from
  `commands.ts`;
* the sliding-window rate limiter (`createRateLimiter.evaluate`,
  `pickMoreRestrictive`) from `rate-limit.ts`;
* the redaction engine (`redactString` with its detector pipeline, and
  the cycle-safe deep traversal `redactValueWithState`) from
  `packages/redaction/src/detectors.ts`, together with the stable
  serializer and SHA-256 (`stableStringify`, `sha256Hex`, `hashObject`)
  from `packages/core/src/hash.ts`.

JavaScript values are modelled with explicit Lean data; machine details
that the claims depend on (regex semantics, word boundaries, SHA-256) are
implemented executably so concrete runs can be checked by `decide`.
-/

namespace Firewall

/-! ## Core data model (packages/core/src/types.ts) -/

/-- `Decision = "ALLOW" | "DENY" | "ASK"`. -/
inductive Decision where
  | ALLOW
  | DENY
  | ASK
deriving DecidableEq, Repr, Fintype

/-- `Risk = "read" | "write" | "critical" | "unknown"`. -/
inductive Risk where
  | read
  | write
  | critical
  | unknown
deriving DecidableEq, Repr

/-- The string the TS code stores for a `Decision` (used in reason templates). -/
def Decision.render : Decision → String
  | .ALLOW => "ALLOW"
  | .DENY => "DENY"
  | .ASK => "ASK"

/-- The string the TS code stores for a `Risk` (used in reason templates). -/
def Risk.render : Risk → String
  | .read => "read"
  | .write => "write"
  | .critical => "critical"
  | .unknown => "unknown"

/-- `LogLevel = "safe" | "debug"`. -/
inductive LogLevel where
  | safe
  | debug
deriving DecidableEq, Repr

/-- `RedactionMode = "standard" | "strict" | "off"`. -/
inductive RedactionMode where
  | standard
  | strict
  | off
deriving DecidableEq, Repr

/-- `InjectionMode = "shadow" | "alert" | "block"`. -/
inductive InjectionMode where
  | shadow
  | alert
  | block
deriving DecidableEq, Repr

/-- Structured JS value for tool-call parameters (acyclic view; the
cycle-capable object-graph view used by the deep redactor is modelled
separately below).  Numbers are modelled as integers: no claim in scope
depends on float behaviour. -/
inductive JsonValue where
  | jnull
  | jbool (b : Bool)
  | jnum (n : Int)
  | jstr (s : String)
  | jarr (xs : List JsonValue)
  | jobj (fields : List (String × JsonValue))

/-- The legacy `allow` alias on a raw tool rule: `true | false | "ask" | "deny"`. -/
inductive AllowAlias where
  | allowTrue
  | allowFalse
  | allowAsk
  | allowDeny
deriving DecidableEq, Repr

/-- Raw `ToolRule` from the policy input (optional fields are `Option`). -/
structure ToolRule where
  name : String
  risk : Option Risk := none
  action : Option Decision := none
  allow : Option AllowAlias := none
  allowPaths : Option (List String) := none
  pathAction : Option Decision := none
  redactParams : Option Bool := none
  redactResult : Option Bool := none
  scanInjection : Option Bool := none
  useExecApprovals : Option Bool := none
deriving DecidableEq, Repr

/-- `NormalizedToolRule` as produced by `normalizeToolRule`:
`allowPaths` is present only when non-empty, exactly as in the source. -/
structure NormalizedToolRule where
  name : String
  risk : Risk
  action : Decision
  allowPaths : Option (List String) := none
  pathAction : Option Decision := none
  redactParams : Bool
  redactResult : Bool
  scanInjection : Bool
  useExecApprovals : Bool
deriving DecidableEq, Repr

/-- `Policy.defaults`. -/
structure PolicyDefaults where
  denyUnknownTools : Bool
  unknownToolAction : Decision
  log : LogLevel
  redaction : RedactionMode
  injectionMode : InjectionMode
deriving DecidableEq, Repr

/-- `Policy`.  The `risk` record has all four entries populated (spec §3
invariant (ii)), so it is modelled as a total function; the defensive
`?? defaults.unknownToolAction` in the source can then never fire. -/
structure Policy where
  mode : String
  defaults : PolicyDefaults
  risk : Risk → Decision
  tools : List ToolRule

/-- Tool-call context (`agentId?`, `sessionKey?`). -/
structure ToolCallContext where
  agentId : Option String := none
  sessionKey : Option String := none
deriving DecidableEq, Repr

/-- `ToolCall`. -/
structure ToolCall where
  toolName : String
  params : JsonValue
  context : ToolCallContext

/-- `RedactionPlan`. -/
structure RedactionPlan where
  redactParams : Bool
  redactResult : Bool
deriving DecidableEq, Repr

/-- `FirewallDecision`. -/
structure FirewallDecision where
  decision : Decision
  reason : String
  risk : Risk
  redactionPlan : RedactionPlan
  scanInjection : Bool
  useExecApprovals : Bool
  toolRule : Option NormalizedToolRule := none
deriving DecidableEq, Repr

/-! ## Policy engine (packages/core/src/policy.ts) -/

def DEFAULT_REDACT_PARAMS : Bool := true

def DEFAULT_REDACT_RESULT : Bool := true

def DEFAULT_SCAN_INJECTION : Bool := true

/-- ASCII lowercase of one char (JS `toLowerCase` restricted to ASCII). -/
def jsToLowerChar (c : Char) : Char :=
  if 65 ≤ c.toNat && c.toNat ≤ 90 then Char.ofNat (c.toNat + 32) else c

/-- JS whitespace as used by `trim` (the code points in scope). -/
def isTrimSpace (c : Char) : Bool :=
  c = ' ' || c = '\t' || c.toNat = 10 || c.toNat = 13 || c.toNat = 11 || c.toNat = 12 ||
    c.toNat = 160 || c.toNat = 0xfeff

/-- JS `String.prototype.toLowerCase` (ASCII fragment). -/
def jsToLower (s : String) : String := String.mk (s.data.map jsToLowerChar)

/-- JS `String.prototype.trim` (ASCII fragment). -/
def jsTrim (s : String) : String :=
  String.mk (((s.data.dropWhile isTrimSpace).reverse.dropWhile isTrimSpace).reverse)

/-- `normalizeToolName`: `String(name || "tool").trim().toLowerCase()`. -/
def normalizeToolName (name : String) : String :=
  jsToLower (jsTrim (if name = "" then "tool" else name))

/-- `resolveDecision(policy, rule, risk)`. -/
def resolveDecision (policy : Policy) (rule : ToolRule) (risk : Risk) : Decision :=
  match rule.action with
  | some action => action
  | none =>
    match rule.allow with
    | some .allowTrue => .ALLOW
    | some .allowFalse => .DENY
    | some .allowDeny => .DENY
    | some .allowAsk => .ASK
    | none => policy.risk risk

/-- `normalizeToolRule(policy, rule)`. -/
def normalizeToolRule (policy : Policy) (rule : ToolRule) : NormalizedToolRule :=
  let risk := rule.risk.getD .unknown
  let action := resolveDecision policy rule risk
  let allowPaths := rule.allowPaths.map (·.filter (fun entry => (jsTrim entry).length > 0))
  { name := normalizeToolName rule.name
    risk := risk
    action := action
    allowPaths :=
      match allowPaths with
      | some paths => if paths.length > 0 then some paths else none
      | none => none
    pathAction := rule.pathAction
    redactParams := rule.redactParams.getD DEFAULT_REDACT_PARAMS
    redactResult := rule.redactResult.getD DEFAULT_REDACT_RESULT
    scanInjection := rule.scanInjection.getD DEFAULT_SCAN_INJECTION
    useExecApprovals := rule.useExecApprovals.getD false }

/-- A JS `Map<string, v>` as an association list in insertion order:
`set` replaces in place or appends. -/
def mapSet {α : Type} (m : List (String × α)) (k : String) (v : α) :
    List (String × α) :=
  match m with
  | [] => [(k, v)]
  | (k', v') :: rest => if k' = k then (k, v) :: rest else (k', v') :: mapSet rest k v

/-- `Map.get` over the association list. -/
def mapGet {α : Type} (m : List (String × α)) (k : String) : Option α :=
  (m.find? (fun e => e.1 = k)).map (·.2)

/-- `buildPolicyIndex(policy)`. -/
def buildPolicyIndex (policy : Policy) : List (String × NormalizedToolRule) :=
  policy.tools.foldl
    (fun map rule =>
      let normalized := normalizeToolRule policy rule
      mapSet map normalized.name normalized)
    []

/-- `buildReason(policy, toolName, decision, rule, risk)`. -/
def buildReason (policy : Policy) (toolName : String) (decision : Decision)
    (rule : Option NormalizedToolRule) (risk : Risk) : String :=
  match rule with
  | none =>
    if policy.defaults.denyUnknownTools then
      if decision = .DENY then
        "Unknown tool \"" ++ toolName ++ "\" denied by default policy."
      else
        "Unknown tool \"" ++ toolName ++ "\" resolved to " ++ decision.render
          ++ " by default policy."
    else
      "Unknown tool \"" ++ toolName ++ "\" evaluated by default policy."
  | some _ =>
    "Tool \"" ++ toolName ++ "\" (" ++ risk.render ++ ") resolved to "
      ++ decision.render ++ "."

/-- `evaluatePolicy(policy, toolCall, toolIndex)`. -/
def evaluatePolicy (policy : Policy) (toolCall : ToolCall)
    (toolIndex : List (String × NormalizedToolRule)) : FirewallDecision :=
  let normalizedToolName := normalizeToolName toolCall.toolName
  let rule := mapGet toolIndex normalizedToolName
  let risk : Risk := (rule.map (·.risk)).getD .unknown
  let decision : Decision :=
    match rule with
    | some r => r.action
    | none =>
      if policy.defaults.denyUnknownTools then policy.defaults.unknownToolAction
      else policy.risk risk
  { decision := decision
    reason := buildReason policy normalizedToolName decision rule risk
    risk := risk
    redactionPlan :=
      { redactParams := (rule.map (·.redactParams)).getD DEFAULT_REDACT_PARAMS
        redactResult := (rule.map (·.redactResult)).getD DEFAULT_REDACT_RESULT }
    scanInjection := (rule.map (·.scanInjection)).getD DEFAULT_SCAN_INJECTION
    useExecApprovals := (rule.map (·.useExecApprovals)).getD false
    toolRule := rule }

/-! ## Decision composition (packages/openclaw/src/handlers.ts) -/

/-- `decisionRank`: DENY ↦ 2, ASK ↦ 1, ALLOW ↦ 0. -/
def decisionRank : Decision → Nat
  | .DENY => 2
  | .ASK => 1
  | .ALLOW => 0

/-- `overrideDecision(current, override, reason)`: apply the override only
when it out-ranks the current decision. -/
def overrideDecision (current : FirewallDecision) (override : Decision)
    (reason : String) : FirewallDecision :=
  if decisionRank override ≤ decisionRank current.decision then current
  else { current with decision := override, reason := reason }

/-- Fold a sequence of guard overrides (decision and reason pairs) over a
base decision, exactly as successive guards do in `handleBeforeToolCall`. -/
def applyOverrides (base : FirewallDecision)
    (overrides : List (Decision × String)) : FirewallDecision :=
  overrides.foldl (fun acc o => overrideDecision acc o.1 o.2) base

/-- The rank-maximum of two decisions (the spec's `max_rank`, binary). -/
def maxRankDecision (a b : Decision) : Decision :=
  if decisionRank b > decisionRank a then b else a

/-! ## SHA-256 (packages/core/src/hash.ts: `sha256Hex` via node:crypto)

Executable SHA-256 over byte lists, so that hash-derived strings
(redaction tokens, approval ids) can be computed inside Lean.  Strings are
taken as ASCII byte sequences (every string hashed by the firewall in the
claims under study is ASCII, where UTF-8 bytes coincide with code points). -/

def M32 : Nat := 4294967296

/-- 32-bit right rotation. -/
def rotr (x n : Nat) : Nat := ((x >>> n) ||| (x <<< (32 - n))) % M32

/-- The SHA-256 round constants. -/
def sha256K : List Nat :=
  [1116352408, 1899447441, 3049323471, 3921009573, 961987163, 1508970993, 2453635748, 2870763221,
   3624381080, 310598401, 607225278, 1426881987, 1925078388, 2162078206, 2614888103, 3248222580,
   3835390401, 4022224774, 264347078, 604807628, 770255983, 1249150122, 1555081692, 1996064986,
   2554220882, 2821834349, 2952996808, 3210313671, 3336571891, 3584528711, 113926993, 338241895,
   666307205, 773529912, 1294757372, 1396182291, 1695183700, 1986661051, 2177026350, 2456956037,
   2730485921, 2820302411, 3259730800, 3345764771, 3516065817, 3600352804, 4094571909, 275423344,
   430227734, 506948616, 659060556, 883997877, 958139571, 1322822218, 1537002063, 1747873779,
   1955562222, 2024104815, 2227730452, 2361852424, 2428436474, 2756734187, 3204031479, 3329325298]

/-- SHA-256 padding: append `0x80`, zeros, then the 64-bit big-endian bit length. -/
def padMessage (msg : List Nat) : List Nat :=
  let len := msg.length
  let bitLen := len * 8
  let zeros := (55 + 64 - len % 64) % 64
  msg ++ [0x80] ++ List.replicate zeros 0 ++
    [bitLen >>> 56 % 256, bitLen >>> 48 % 256, bitLen >>> 40 % 256, bitLen >>> 32 % 256,
     bitLen >>> 24 % 256, bitLen >>> 16 % 256, bitLen >>> 8 % 256, bitLen % 256]

/-- Split into 64-byte chunks (fuel-driven; fuel is always sufficient at call site). -/
def toChunksF : Nat → List Nat → List (List Nat)
  | 0, _ => []
  | _, [] => []
  | fuel + 1, bytes => bytes.take 64 :: toChunksF fuel (bytes.drop 64)

/-- Big-endian 4-byte groups to 32-bit words. -/
def bytesToWords : List Nat → List Nat
  | b0 :: b1 :: b2 :: b3 :: rest => (((b0 * 256 + b1) * 256 + b2) * 256 + b3) :: bytesToWords rest
  | _ => []

/-- Extend the 16 message words to 64 schedule words. -/
def extendW : Nat → List Nat → List Nat
  | 0, w => w
  | fuel + 1, w =>
    let i := w.length
    let w15 := w.getD (i - 15) 0
    let w2 := w.getD (i - 2) 0
    let s0 := (rotr w15 7) ^^^ (rotr w15 18) ^^^ (w15 >>> 3)
    let s1 := (rotr w2 17) ^^^ (rotr w2 19) ^^^ (w2 >>> 10)
    extendW fuel (w ++ [(w.getD (i - 16) 0 + s0 + w.getD (i - 7) 0 + s1) % M32])

/-- SHA-256 working state. -/
structure HashState where
  a : Nat
  b : Nat
  c : Nat
  d : Nat
  e : Nat
  f : Nat
  g : Nat
  h : Nat

/-- One SHA-256 compression round. -/
def compressStep (w : List Nat) (st : HashState) (i : Nat) : HashState :=
  let s1 := (rotr st.e 6) ^^^ (rotr st.e 11) ^^^ (rotr st.e 25)
  let ch := (st.e &&& st.f) ^^^ ((M32 - 1 - st.e) &&& st.g)
  let temp1 := (st.h + s1 + ch + sha256K.getD i 0 + w.getD i 0) % M32
  let s0 := (rotr st.a 2) ^^^ (rotr st.a 13) ^^^ (rotr st.a 22)
  let maj := (st.a &&& st.b) ^^^ (st.a &&& st.c) ^^^ (st.b &&& st.c)
  let temp2 := (s0 + maj) % M32
  { a := (temp1 + temp2) % M32, b := st.a, c := st.b, d := st.c,
    e := (st.d + temp1) % M32, f := st.e, g := st.f, h := st.g }

/-- Process one 64-byte chunk against the running digest. -/
def processChunk (hs : List Nat) (chunk : List Nat) : List Nat :=
  let w := extendW 48 (bytesToWords chunk)
  let st0 : HashState :=
    { a := hs.getD 0 0, b := hs.getD 1 0, c := hs.getD 2 0, d := hs.getD 3 0,
      e := hs.getD 4 0, f := hs.getD 5 0, g := hs.getD 6 0, h := hs.getD 7 0 }
  let st := (List.range 64).foldl (compressStep w) st0
  [(hs.getD 0 0 + st.a) % M32, (hs.getD 1 0 + st.b) % M32, (hs.getD 2 0 + st.c) % M32,
   (hs.getD 3 0 + st.d) % M32, (hs.getD 4 0 + st.e) % M32, (hs.getD 5 0 + st.f) % M32,
   (hs.getD 6 0 + st.g) % M32, (hs.getD 7 0 + st.h) % M32]

/-- Lowercase hex digit. -/
def hexDigit (n : Nat) : Char :=
  if n < 10 then Char.ofNat (48 + n) else Char.ofNat (87 + n)

/-- 32-bit word to 8 hex characters. -/
def toHex8 (x : Nat) : List Char :=
  [hexDigit (x >>> 28 % 16), hexDigit (x >>> 24 % 16), hexDigit (x >>> 20 % 16),
   hexDigit (x >>> 16 % 16), hexDigit (x >>> 12 % 16), hexDigit (x >>> 8 % 16),
   hexDigit (x >>> 4 % 16), hexDigit (x % 16)]

/-- SHA-256 digest of a byte list. -/
def sha256Bytes (msg : List Nat) : List Nat :=
  let padded := padMessage msg
  let chunks := toChunksF (padded.length / 64 + 1) padded
  chunks.foldl processChunk
    [0x6a09e667, 0xbb67ae85, 0x3c6ef372, 0xa54ff53a, 0x510e527f, 0x9b05688c, 0x1f83d9ab, 0x5be0cd19]

/-- `sha256Hex(input)`: hex digest of the string's bytes. -/
def sha256Hex (input : String) : String :=
  String.mk ((sha256Bytes (input.data.map Char.toNat)).flatMap toHex8)

/-! ## Stable serializer (packages/core/src/hash.ts: `stableStringify`, `hashObject`)

`stableStringify(value) = JSON.stringify(sortValue(value))`: object keys
in lexicographic (code-unit) order, arrays in order.  The JSON string
escaping covers the characters appearing in firewall data (quote,
backslash, control characters as used). -/

/-- JSON string escaping as performed by `JSON.stringify` for the
character set in scope (ASCII, with `"` and backslash and control chars). -/
def jsonEscapeChar (c : Char) : List Char :=
  if c = '"' then ['\\', '"']
  else if c = '\\' then ['\\', '\\']
  else if c = Char.ofNat 10 then ['\\', 'n']
  else if c = Char.ofNat 13 then ['\\', 'r']
  else if c = Char.ofNat 9 then ['\\', 't']
  else [c]

/-- Quote and escape a string for JSON output. -/
def jsonQuote (s : String) : String :=
  String.mk ('"' :: s.data.flatMap jsonEscapeChar ++ ['"'])

/-- Code-unit lexicographic strict order on char lists. -/
def listCharLt : List Char → List Char → Bool
  | [], [] => false
  | [], _ :: _ => true
  | _ :: _, [] => false
  | a :: as, b :: bs =>
    if a.toNat < b.toNat then true
    else if b.toNat < a.toNat then false
    else listCharLt as bs

/-- Code-unit order on strings, as used by JS `Array.sort` on keys. -/
def strLe (a b : String) : Bool := !(listCharLt b.data a.data)

/-- Insertion sort of object fields by key (JS `Object.keys(...).sort()`). -/
def insertField (f : String × JsonValue) :
    List (String × JsonValue) → List (String × JsonValue)
  | [] => [f]
  | g :: rest => if strLe f.1 g.1 then f :: g :: rest else g :: insertField f rest

def sortFields : List (String × JsonValue) → List (String × JsonValue)
  | [] => []
  | f :: rest => insertField f (sortFields rest)

mutual

/-- `sortValue`: recursively sort object keys (arrays keep order). -/
def sortValue : JsonValue → JsonValue
  | .jnull => .jnull
  | .jbool b => .jbool b
  | .jnum n => .jnum n
  | .jstr s => .jstr s
  | .jarr xs => .jarr (sortValueList xs)
  | .jobj fields => .jobj (sortFields (sortValueFields fields))

def sortValueList : List JsonValue → List JsonValue
  | [] => []
  | x :: rest => sortValue x :: sortValueList rest

def sortValueFields : List (String × JsonValue) → List (String × JsonValue)
  | [] => []
  | (k, v) :: rest => (k, sortValue v) :: sortValueFields rest

end

mutual

/-- `JSON.stringify` over the (already key-sorted) value. -/
def jsonStringify : JsonValue → String
  | .jnull => "null"
  | .jbool b => if b then "true" else "false"
  | .jnum n => toString n
  | .jstr s => jsonQuote s
  | .jarr xs => "[" ++ stringifyArr xs ++ "]"
  | .jobj fields => "\x7b" ++ stringifyObj fields ++ "\x7d"

def stringifyArr : List JsonValue → String
  | [] => ""
  | [x] => jsonStringify x
  | x :: rest => jsonStringify x ++ "," ++ stringifyArr rest

def stringifyObj : List (String × JsonValue) → String
  | [] => ""
  | [(k, v)] => jsonQuote k ++ ":" ++ jsonStringify v
  | (k, v) :: rest => jsonQuote k ++ ":" ++ jsonStringify v ++ "," ++ stringifyObj rest

end

/-- `stableStringify(value) = JSON.stringify(sortValue(value))`. -/
def stableStringify (value : JsonValue) : String :=
  jsonStringify (sortValue value)

/-- `hashObject(value) = sha256Hex(stableStringify(value))`. -/
def hashObject (value : JsonValue) : String :=
  sha256Hex (stableStringify value)

/-! ## Regex engine for the detector patterns
(packages/redaction/src/detectors.ts)

The detector regexes use character classes, literals, alternation,
bounded/unbounded greedy repetition over classes, word boundaries and
lookaheads.  `matchRe` is a backtracking matcher with JavaScript
semantics: leftmost match, alternatives tried left to right, greedy
repetition longest first, `\b` computed from `[A-Za-z0-9_]`. -/

/-- JS word character (for `\b`): `[A-Za-z0-9_]`. -/
def isWordChar (c : Char) : Bool :=
  (65 ≤ c.toNat && c.toNat ≤ 90) || (97 ≤ c.toNat && c.toNat ≤ 122) ||
    (48 ≤ c.toNat && c.toNat ≤ 57) || c.toNat = 95

def isAsciiUpper (c : Char) : Bool := 65 ≤ c.toNat && c.toNat ≤ 90

def isAsciiLower (c : Char) : Bool := 97 ≤ c.toNat && c.toNat ≤ 122

def isAsciiLetter (c : Char) : Bool := isAsciiUpper c || isAsciiLower c

def isDigitChar (c : Char) : Bool := 48 ≤ c.toNat && c.toNat ≤ 57

def isAlnumChar (c : Char) : Bool := isAsciiLetter c || isDigitChar c

/-- Membership in an explicit character list. -/
def charIn (cs : List Char) (c : Char) : Bool := cs.contains c

/-- JS `\s` (whitespace), restricted to the code points in scope. -/
def isJsSpace (c : Char) : Bool :=
  charIn [' ', '\t', Char.ofNat 10, Char.ofNat 13, Char.ofNat 11, Char.ofNat 12] c ||
    c.toNat = 160 || c.toNat = 0xfeff

/-- JS `.` (any char except line terminators). -/
def isJsDot (c : Char) : Bool :=
  !(c.toNat = 10 || c.toNat = 13 || c.toNat = 0x2028 || c.toNat = 0x2029)

/-- Char range test. -/
def charBetween (lo hi : Char) (c : Char) : Bool :=
  lo.toNat ≤ c.toNat && c.toNat ≤ hi.toNat

/-- Case-insensitive char equality (ASCII). -/
def charLowerEq (a b : Char) : Bool := jsToLowerChar a = jsToLowerChar b

/-- Regex AST fragment sufficient for the detector patterns. -/
inductive Re where
  | eps
  | cls (p : Char → Bool)
  | lit (s : List Char)
  | litCI (s : List Char)
  | seq (a b : Re)
  | alt (a b : Re)
  | opt (a : Re)
  | reps (p : Char → Bool) (min : Nat) (max : Option Nat)
  | wb
  | la (a : Re)

/-- `\b`: previous char and next char disagree on word-ness. -/
def atWordBoundary (prev : Option Char) (s : List Char) : Bool :=
  let pw := match prev with | some c => isWordChar c | none => false
  let nw := match s with | c :: _ => isWordChar c | [] => false
  pw != nw

/-- Continuation/result type: (leftover input, captured chars). -/
abbrev MRes := List Char × List Char

/-- Match a literal (optionally case-insensitive). -/
def matchLit (ci : Bool) : List Char → Option Char → List Char →
    (Option Char → List Char → Option MRes) → Option MRes
  | [], prev, s, k => k prev s
  | c :: cs, _, s, k =>
    match s with
    | [] => none
    | c' :: rest =>
      if (if ci then charLowerEq c c' else c = c') then matchLit ci cs (some c') rest k
      else none

def decOpt : Option Nat → Option Nat
  | some n => some (n - 1)
  | none => none

/-- Greedy class repetition `{min,max}` with backtracking (longest first). -/
def repsMatch (p : Char → Bool) : Nat → Option Nat → Option Char → List Char →
    (Option Char → List Char → Option MRes) → Option MRes
  | min, max, prev, s, k =>
    match max with
    | some 0 => if min = 0 then k prev s else none
    | _ =>
      match s with
      | [] => if min = 0 then k prev s else none
      | c :: rest =>
        if p c then
          match repsMatch p (min - 1) (decOpt max) (some c) rest k with
          | some r => some r
          | none => if min = 0 then k prev s else none
        else if min = 0 then k prev s else none

/-- Backtracking CPS matcher with JS regex semantics. -/
def matchRe : Re → Option Char → List Char →
    (Option Char → List Char → Option MRes) → Option MRes
  | .eps, prev, s, k => k prev s
  | .cls p, _, s, k =>
    (match s with
     | [] => none
     | c :: rest => if p c then k (some c) rest else none)
  | .lit cs, prev, s, k => matchLit false cs prev s k
  | .litCI cs, prev, s, k => matchLit true cs prev s k
  | .seq a b, prev, s, k => matchRe a prev s (fun p' s' => matchRe b p' s' k)
  | .alt a b, prev, s, k =>
    (match matchRe a prev s k with
     | some r => some r
     | none => matchRe b prev s k)
  | .opt a, prev, s, k =>
    (match matchRe a prev s k with
     | some r => some r
     | none => k prev s)
  | .reps p min max, prev, s, k => repsMatch p min max prev s k
  | .wb, prev, s, k => if atWordBoundary prev s then k prev s else none
  | .la a, prev, s, k =>
    (match matchRe a prev s (fun _ rest => some (rest, [])) with
     | some _ => k prev s
     | none => none)

/-- `\b` between the last kept char and the following char. -/
def wbAfter (last : Char) (next : Option Char) : Bool :=
  isWordChar last != (match next with | some c => isWordChar c | none => false)

/-- Backtrack over capture-run lengths, longest first, down to `capMin`. -/
def capTryLens (capMin : Nat) (run rest : List Char) : Nat → Option MRes
  | 0 => none
  | k + 1 =>
    if k + 1 < capMin then none
    else
      let kept := run.take (k + 1)
      let next : Option Char :=
        match run.drop (k + 1) with
        | c :: _ => some c
        | [] => rest.head?
      match kept.getLast? with
      | some last =>
        if wbAfter last next then some (run.drop (k + 1) ++ rest, kept)
        else capTryLens capMin run rest k
      | none => none

/-- Trailing capture group `([cls]{capMin,})\b` at the end of a pattern
(the shape used by the auth-header and generic-secret rules). -/
def capRunMatch (p : Char → Bool) (capMin : Nat) (s : List Char) : Option MRes :=
  let run := s.takeWhile p
  let rest := s.dropWhile p
  capTryLens capMin run rest run.length

/-! ### Detector patterns (transliterations of the regex literals) -/

def emailLocalCls (c : Char) : Bool := isAlnumChar c || charIn ['.', '_', '%', '+', '-'] c

def emailDomainCls (c : Char) : Bool := isAlnumChar c || charIn ['.', '-'] c

def authTokenCls (c : Char) : Bool :=
  isAlnumChar c || charIn ['.', '_', '~', '+', '-', '=', '/'] c

def secretValueCls (c : Char) : Bool := isAlnumChar c || charIn ['_', '-'] c

def hexCls (c : Char) : Bool :=
  isDigitChar c || charBetween 'a' 'f' c || charBetween 'A' 'F' c

def upperAlnumCls (c : Char) : Bool := isDigitChar c || isAsciiUpper c

def slackCls (c : Char) : Bool := isAlnumChar c || c = '-'

def btcCls (c : Char) : Bool :=
  isDigitChar c || isAsciiLower c || (isAsciiUpper c && !(c = 'I') && !(c = 'O'))

def strictTokenCls (c : Char) : Bool := isAlnumChar c || charIn ['.', '_', '~', '-'] c

def b64Cls (c : Char) : Bool := isAlnumChar c || c = '+' || c = '/'

/-- `EMAIL_RE = /\b[A-Z0-9._%+-]+@[A-Z0-9.-]+\.[A-Z]{2,}\b/gi`
(the `i` flag makes the letter classes any-case). -/
def EMAIL_RE : Re :=
  .seq .wb (.seq (.reps emailLocalCls 1 none)
    (.seq (.lit ['@']) (.seq (.reps emailDomainCls 1 none)
      (.seq (.lit ['.']) (.seq (.reps isAsciiLetter 2 none) .wb)))))

/-- One IPv4 octet: `25[0-5]|2[0-4]\d|1\d\d|[1-9]?\d`. -/
def ipOctet : Re :=
  .alt (.seq (.lit ['2', '5']) (.cls (charBetween '0' '5')))
    (.alt (.seq (.lit ['2']) (.seq (.cls (charBetween '0' '4')) (.cls isDigitChar)))
      (.alt (.seq (.lit ['1']) (.seq (.cls isDigitChar) (.cls isDigitChar)))
        (.seq (.opt (.cls (charBetween '1' '9'))) (.cls isDigitChar))))

/-- `IPV4_RE = /\b(?:(?:25[0-5]|2[0-4]\d|1\d\d|[1-9]?\d)\.){3}(?:...)\b/g`. -/
def IPV4_RE : Re :=
  .seq .wb (.seq ipOctet (.seq (.lit ['.']) (.seq ipOctet (.seq (.lit ['.'])
    (.seq ipOctet (.seq (.lit ['.']) (.seq ipOctet .wb)))))))

/-- Prefix of `AUTH_HEADER_RE = /\bAuthorization:\s*(?:Bearer|Basic|Token)?\s*([A-Za-z0-9._~+\-=\/]+)\b/gi`
up to (excluding) the captured token run. -/
def AUTH_HEADER_PRE : Re :=
  .seq .wb (.seq (.litCI "Authorization:".data)
    (.seq (.reps isJsSpace 0 none)
      (.seq (.opt (.alt (.litCI "Bearer".data) (.alt (.litCI "Basic".data) (.litCI "Token".data))))
        (.reps isJsSpace 0 none))))

/-- `OPENAI_KEY_RE = /\bsk-[A-Za-z0-9]{20,}\b/g`. -/
def OPENAI_KEY_RE : Re :=
  .seq .wb (.seq (.lit "sk-".data) (.seq (.reps isAlnumChar 20 none) .wb))

/-- `AWS_KEY_RE = /\bAKIA[0-9A-Z]{16}\b/g`. -/
def AWS_KEY_RE : Re :=
  .seq .wb (.seq (.lit "AKIA".data) (.seq (.reps upperAlnumCls 16 (some 16)) .wb))

/-- `SLACK_TOKEN_RE = /\bxox[baprs]-[A-Za-z0-9-]{10,48}\b/g`. -/
def SLACK_TOKEN_RE : Re :=
  .seq .wb (.seq (.lit "xox".data) (.seq (.cls (charIn ['b', 'a', 'p', 'r', 's']))
    (.seq (.lit ['-']) (.seq (.reps slackCls 10 (some 48)) .wb))))

/-- `STRIPE_KEY_RE = /\bsk_live_[0-9a-zA-Z]{24,}\b/g`. -/
def STRIPE_KEY_RE : Re :=
  .seq .wb (.seq (.lit "sk_live_".data) (.seq (.reps isAlnumChar 24 none) .wb))

/-- Prefix of `GENERIC_SECRET_RE = /\b(?:api[_-]?key|token|secret|password)\s*[:=]\s*([A-Za-z0-9_\-]{12,})\b/gi`
up to (excluding) the captured value run. -/
def GENERIC_SECRET_PRE : Re :=
  .seq .wb (.seq
    (.alt (.seq (.litCI "api".data) (.seq (.opt (.cls (charIn ['_', '-']))) (.litCI "key".data)))
      (.alt (.litCI "token".data) (.alt (.litCI "secret".data) (.litCI "password".data))))
    (.seq (.reps isJsSpace 0 none) (.seq (.cls (charIn [':', '=']))
      (.reps isJsSpace 0 none))))

/-- `ETH_ADDRESS_RE = /\b0x[a-fA-F0-9]{40}\b/g`. -/
def ETH_ADDRESS_RE : Re :=
  .seq .wb (.seq (.lit "0x".data) (.seq (.reps hexCls 40 (some 40)) .wb))

/-- `BTC_ADDRESS_RE = /\b(?:bc1|[13])[a-zA-HJ-NP-Z0-9]{25,39}\b/g`. -/
def BTC_ADDRESS_RE : Re :=
  .seq .wb (.seq (.alt (.lit "bc1".data) (.cls (charIn ['1', '3'])))
    (.seq (.reps btcCls 25 (some 39)) .wb))

/-- `TXID_RE = /\b[a-fA-F0-9]{64}\b/g`. -/
def TXID_RE : Re :=
  .seq .wb (.seq (.reps hexCls 64 (some 64)) .wb)

/-- `STRICT_TOKEN_RE = /\b(?=[A-Za-z0-9._~-]{24,})(?=.*[A-Za-z])(?=.*\d)[A-Za-z0-9._~-]+\b/g`. -/
def STRICT_TOKEN_RE : Re :=
  .seq .wb (.seq (.la (.reps strictTokenCls 24 none))
    (.seq (.la (.seq (.reps isJsDot 0 none) (.cls isAsciiLetter)))
      (.seq (.la (.seq (.reps isJsDot 0 none) (.cls isDigitChar)))
        (.seq (.reps strictTokenCls 1 none) .wb))))

/-- `STRICT_BASE64_RE = /\b[A-Za-z0-9+\/]{32,}={0,2}\b/g`. -/
def STRICT_BASE64_RE : Re :=
  .seq .wb (.seq (.reps b64Cls 32 none) (.seq (.reps (fun c => c = '=') 0 (some 2)) .wb))

/-- `STRICT_HEX_RE = /\b[a-fA-F0-9]{32,}\b/g`. -/
def STRICT_HEX_RE : Re :=
  .seq .wb (.seq (.reps hexCls 32 none) .wb)

/-! ### Redaction reports and the detector pipeline -/

/-- `RedactionMatch`. -/
structure RedactionMatch where
  type : String
  count : Nat
  hashes : List String
deriving DecidableEq, Repr

/-- `RedactionReport`. -/
structure RedactionReport where
  redacted : Bool
  /-- Source field name: `matches` (a reserved word in Lean). -/
  matchList : List RedactionMatch
deriving DecidableEq, Repr

def emptyReport : RedactionReport := { redacted := false, matchList := [] }

/-- Replace the first list element satisfying `p` (JS `find` + mutate). -/
def updateFirst {α : Type} (p : α → Bool) (f : α → α) : List α → List α
  | [] => []
  | x :: rest => if p x then f x :: rest else x :: updateFirst p f rest

/-- `recordMatch(report, type, value)`: add a 12-hex-char hash of the value
under the given type and set the redacted flag. -/
def recordMatch (report : RedactionReport) (type : String) (value : String) :
    RedactionReport :=
  let hash := (sha256Hex value).take 12
  if (report.matchList.find? (fun m => m.type = type)).isSome then
    { redacted := true
      matchList := updateFirst (fun m => m.type = type)
        (fun m => { m with count := m.count + 1, hashes := m.hashes ++ [hash] })
        report.matchList }
  else
    { redacted := true
      matchList := report.matchList ++ [{ type := type, count := 1, hashes := [hash] }] }

/-- The replacement token `[REDACTED:<type>:<hash8>]`. -/
def redactionToken (type : String) (value : String) : String :=
  "[REDACTED:" ++ type ++ ":" ++ (sha256Hex value).take 8 ++ "]"

/-- Data of one regex match: consumed length, the value passed to
`recordMatch`, and the replacement text. -/
structure MatchData where
  len : Nat
  recordValue : String
  replacement : String

/-- One detector: a type tag plus a match-at-position function. -/
structure Detector where
  type : String
  matchAt : Option Char → List Char → Option MatchData

/-- Detector for the plain `redactByPattern` shape: replacement is the
standard token over the whole match. -/
def simpleDetector (type : String) (re : Re) : Detector :=
  { type := type
    matchAt := fun prev s =>
      (matchRe re prev s (fun _ rest => some (rest, []))).map (fun pr =>
        let len := s.length - pr.1.length
        let matched := String.mk (s.take len)
        { len := len, recordValue := matched, replacement := redactionToken type matched }) }

/-- Replace the first occurrence of `pat` in `s` by `repl` (JS
`String.prototype.replace` with a string pattern). -/
def replaceFirstL (pat repl : List Char) : List Char → List Char
  | [] => []
  | c :: rest =>
    if pat.isPrefixOf (c :: rest) then repl ++ (c :: rest).drop pat.length
    else c :: replaceFirstL pat repl rest

/-- The auth-header rule: records the captured token and rewrites to
`Authorization: [REDACTED:auth:<hash8>]`. -/
def authHeaderDetector : Detector :=
  { type := "auth"
    matchAt := fun prev s =>
      (matchRe AUTH_HEADER_PRE prev s (fun _ s' => capRunMatch authTokenCls 1 s')).map
        (fun pr =>
          let len := s.length - pr.1.length
          let token := String.mk pr.2
          { len := len, recordValue := token
            replacement := "Authorization: [REDACTED:auth:" ++ (sha256Hex token).take 8 ++ "]" }) }

/-- The generic-secret rule: records the captured value and rewrites only
the value portion of the match. -/
def genericSecretDetector : Detector :=
  { type := "secret"
    matchAt := fun prev s =>
      (matchRe GENERIC_SECRET_PRE prev s (fun _ s' => capRunMatch secretValueCls 12 s')).map
        (fun pr =>
          let len := s.length - pr.1.length
          let matched := s.take len
          let value := String.mk pr.2
          { len := len, recordValue := value
            replacement := String.mk
              (replaceFirstL pr.2 (redactionToken "secret" value).data matched) }) }

/-- Global-replace driver: scan left to right, replacing each match and
continuing after it (fuel is the remaining input length plus one). -/
def runDetectorF : Nat → Detector → Option Char → List Char → List Char →
    RedactionReport → List Char × RedactionReport
  | 0, _, _, s, acc, report => (acc ++ s, report)
  | fuel + 1, det, prev, s, acc, report =>
    match s with
    | [] => (acc, report)
    | c :: rest =>
      match det.matchAt prev s with
      | some md =>
        if md.len = 0 then runDetectorF fuel det (some c) rest (acc ++ [c]) report
        else
          let matched := s.take md.len
          let report' := recordMatch report det.type md.recordValue
          runDetectorF fuel det matched.getLast? (s.drop md.len)
            (acc ++ md.replacement.data) report'
      | none => runDetectorF fuel det (some c) rest (acc ++ [c]) report

/-- Run one detector over a whole string (one `redactByPattern` call). -/
def runDetector (acc : String × RedactionReport) (det : Detector) :
    String × RedactionReport :=
  let s := acc.1.data
  let (out, report) := runDetectorF (s.length + 1) det none s [] acc.2
  (String.mk out, report)

/-- The standard-mode detector sequence, in source order. -/
def standardDetectors : List Detector :=
  [simpleDetector "email" EMAIL_RE,
   simpleDetector "ip" IPV4_RE,
   authHeaderDetector,
   simpleDetector "openai_key" OPENAI_KEY_RE,
   simpleDetector "aws_key" AWS_KEY_RE,
   simpleDetector "slack_token" SLACK_TOKEN_RE,
   simpleDetector "stripe_key" STRIPE_KEY_RE,
   genericSecretDetector,
   simpleDetector "eth_address" ETH_ADDRESS_RE,
   simpleDetector "btc_address" BTC_ADDRESS_RE,
   simpleDetector "txid" TXID_RE]

/-- The extra strict-mode detectors, in source order. -/
def strictDetectors : List Detector :=
  [simpleDetector "strict_token" STRICT_TOKEN_RE,
   simpleDetector "strict_base64" STRICT_BASE64_RE,
   simpleDetector "strict_hex" STRICT_HEX_RE]

/-- Split on `\s+` and drop empty words. -/
def splitWordsAux : List Char → List Char → List (List Char)
  | [], cur => if cur.isEmpty then [] else [cur.reverse]
  | c :: rest, cur =>
    if isJsSpace c then
      if cur.isEmpty then splitWordsAux rest [] else cur.reverse :: splitWordsAux rest []
    else splitWordsAux rest (c :: cur)

def splitWords (s : List Char) : List (List Char) := splitWordsAux s []

/-- `isSeedPhraseLike(text)`: 12 to 24 words, lowercase letters and spaces
only, each word 3 to 8 chars. -/
def isSeedPhraseLike (text : String) : Bool :=
  let normalized := jsToLower (jsTrim text)
  let words := splitWords normalized.data
  if words.length < 12 || words.length > 24 then false
  else if normalized.data.any (fun c => !(isAsciiLower c || isJsSpace c)) then false
  else words.all (fun w => 3 ≤ w.length && w.length ≤ 8)

/-- `RedactionOptions`: mode plus `seedPhraseMode` (`heuristic` unless off). -/
structure RedactionOptions where
  mode : RedactionMode := .standard
  seedPhraseOff : Bool := false
deriving DecidableEq, Repr

/-- `RedactionResult`. -/
structure RedactionResult where
  redacted : String
  report : RedactionReport
deriving DecidableEq, Repr

/-- `redactString(input, options)`: run the detector pipeline in source
order, then the seed-phrase heuristic over the final output. -/
def redactString (input : String) (options : RedactionOptions := {}) : RedactionResult :=
  if options.mode = .off then { redacted := input, report := emptyReport }
  else
    let acc1 := standardDetectors.foldl runDetector (input, emptyReport)
    let acc2 :=
      if options.mode = .strict then strictDetectors.foldl runDetector acc1 else acc1
    if !options.seedPhraseOff && isSeedPhraseLike acc2.1 then
      { redacted := redactionToken "seed_phrase" acc2.1
        report := recordMatch acc2.2 "seed_phrase" acc2.1 }
    else { redacted := acc2.1, report := acc2.2 }

/-! ## Deep redaction on acyclic values
(packages/redaction/src/index.ts: `redactValueWithState`, restricted to
tree-shaped inputs, where the `WeakMap` cycle table never hits; the
object-graph view with cycles is modelled further below for the
cycle-safety claim) -/

/-- `mergeReports(a, b)`: sum counts and concatenate hashes by type. -/
def mergeReports (a b : RedactionReport) : RedactionReport :=
  { redacted := a.redacted || b.redacted
    matchList := b.matchList.foldl
      (fun merged m =>
        if (merged.find? (fun e => e.type = m.type)).isSome then
          updateFirst (fun e => e.type = m.type)
            (fun e => { e with count := e.count + m.count, hashes := e.hashes ++ m.hashes })
            merged
        else merged ++ [m])
      a.matchList }

mutual

/-- `redactValueWithState` on a tree value: strings through `redactString`,
arrays by index, objects by key, other scalars unchanged. -/
def redactValueJson (value : JsonValue) (options : RedactionOptions) :
    JsonValue × RedactionReport :=
  if options.mode = .off then (value, emptyReport)
  else
    match value with
    | .jstr s =>
      let result := redactString s options
      (.jstr result.redacted, result.report)
    | .jarr xs =>
      let result := redactJsonList xs options ([], emptyReport)
      (.jarr result.1, result.2)
    | .jobj fields =>
      let result := redactJsonFields fields options ([], emptyReport)
      (.jobj result.1, result.2)
    | v => (v, emptyReport)

/-- Array recursion: children reports merged left to right. -/
def redactJsonList (xs : List JsonValue) (options : RedactionOptions)
    (acc : List JsonValue × RedactionReport) : List JsonValue × RedactionReport :=
  match xs with
  | [] => acc
  | x :: rest =>
    let next := redactValueJson x options
    redactJsonList rest options (acc.1 ++ [next.1], mergeReports acc.2 next.2)

/-- Object recursion by key, in key order. -/
def redactJsonFields (fields : List (String × JsonValue)) (options : RedactionOptions)
    (acc : List (String × JsonValue) × RedactionReport) :
    List (String × JsonValue) × RedactionReport :=
  match fields with
  | [] => acc
  | (k, v) :: rest =>
    let next := redactValueJson v options
    redactJsonFields rest options (acc.1 ++ [(k, next.1)], mergeReports acc.2 next.2)

end

/-! ## Pre-call pipeline (packages/openclaw/src/handlers.ts) -/

/-- `truncate(value, max)`. -/
def truncate (value : String) (max : Nat) : String :=
  if value.length ≤ max then value else String.mk (value.data.take max) ++ "..."

/-- `redactParamsPreview(params, shouldRedact, redactionMode)`: returns
(preview, paramsHash, redactionReport).  The `[unserializable-params]`
catch branch cannot fire on the acyclic values modelled here, since
`stableStringify` is total on them. -/
def redactParamsPreview (params : JsonValue) (shouldRedact : Bool)
    (redactionMode : RedactionMode) : String × String × RedactionReport :=
  if !shouldRedact || redactionMode = .off then
    (truncate (stableStringify params) 500, hashObject params, emptyReport)
  else
    let redaction := redactValueJson params { mode := redactionMode }
    (truncate (stableStringify redaction.1) 500, hashObject redaction.1, redaction.2)

/-- The exec-delegate rewrite in `handleBeforeToolCall`: delegate exec
approvals to OpenClaw's built-in system. -/
def execDelegate (toolName : String) (decision : FirewallDecision) : FirewallDecision :=
  if toolName = "exec" && decision.useExecApprovals && decision.decision = .ASK then
    { decision with decision := .ALLOW, reason := "Exec approval delegated to OpenClaw." }
  else decision

/-- Outcome of `evaluatePathAllowlist` as far as decision composition is
concerned (the path guard internals are C7 scope, not needed here). -/
structure PathCheckResult where
  allowed : Bool
  reason : String
deriving DecidableEq, Repr

/-- `evaluatePathGuard` (decision part): fires only when the rule carries
a non-empty `allowPaths`; a failed check overrides with
`pathAction ?? ASK` and reason `Path guard: <reason>`. -/
def evaluatePathGuard (decision : FirewallDecision) (check : PathCheckResult) :
    Option FirewallDecision :=
  match decision.toolRule with
  | none => none
  | some rule =>
    match rule.allowPaths with
    | none => none
    | some allowPaths =>
      if allowPaths.length = 0 then none
      else if !check.allowed then
        some (overrideDecision decision (rule.pathAction.getD .ASK)
          ("Path guard: " ++ check.reason))
      else none

/-- Fuel-driven decimal rendering of a `Nat` (kernel-computable). -/
def natToStrAux : Nat → Nat → List Char → List Char
  | 0, _, acc => acc
  | _ + 1, 0, acc => acc
  | fuel + 1, n, acc => natToStrAux fuel (n / 10) (Char.ofNat (48 + n % 10) :: acc)

def natToStr (n : Nat) : String :=
  if n = 0 then "0" else String.mk (natToStrAux (n + 1) n [])

/-- Info of a rate-limit hit as consumed by `evaluateRateLimit` in
handlers.ts (action, maxCalls, windowMs of the hit rule). -/
structure RateLimitHitInfo where
  action : Decision
  maxCalls : Nat
  windowMs : Nat
deriving DecidableEq, Repr

/-- `Math.max(1, Math.round(windowMs / 1000))`. -/
def windowSecOf (windowMs : Nat) : Nat := max 1 ((windowMs + 500) / 1000)

/-- The reason string for a rate-limit override. -/
def rateLimitReason (maxCalls windowSec : Nat) : String :=
  "Rate limit exceeded (" ++ natToStr maxCalls ++ " calls / " ++ natToStr windowSec ++ "s)."

/-- `evaluateRateLimit` (decision part): a hit overrides with the rule's
action and the templated reason. -/
def evaluateRateLimitStage (decision : FirewallDecision)
    (hit : Option RateLimitHitInfo) : Option FirewallDecision :=
  match hit with
  | none => none
  | some h =>
    some (overrideDecision decision h.action
      (rateLimitReason h.maxCalls (windowSecOf h.windowMs)))

/-- The decision-composition portion of `handleBeforeToolCall`:
policy evaluation, exec-delegate rewrite, path-guard override, rate-limit
override (the rate limiter is not consulted when the decision is already
DENY). -/
def precallDecision (policy : Policy)
    (toolIndex : List (String × NormalizedToolRule)) (eventToolName : String)
    (params : JsonValue) (ctx : ToolCallContext)
    (pathCheck : PathCheckResult) (rateHit : Option RateLimitHitInfo) :
    FirewallDecision :=
  let toolName := normalizeToolName eventToolName
  let toolCall : ToolCall := { toolName := toolName, params := params, context := ctx }
  let d0 := evaluatePolicy policy toolCall toolIndex
  let d1 := execDelegate toolName d0
  let d2 :=
    match evaluatePathGuard d1 pathCheck with
    | some ov => ov
    | none => d1
  if d2.decision = .DENY then d2
  else
    match evaluateRateLimitStage d2 rateHit with
    | some ov => ov
    | none => d2

/-! ## Approval store (packages/openclaw/src/storage.ts) and
approval resolution (handlers.ts) -/

/-- `ApprovalStatus`. -/
inductive ApprovalStatus where
  | pending
  | approved
  | denied
deriving DecidableEq, Repr

/-- `ApprovalScope`. -/
inductive ApprovalScope where
  | once
  | session
deriving DecidableEq, Repr

/-- `ApprovalRecord`. -/
structure ApprovalRecord where
  id : String
  toolName : String
  paramsHash : String
  paramsPreview : String
  risk : String
  sessionKey : Option String := none
  agentId : Option String := none
  status : ApprovalStatus
  scope : Option ApprovalScope := none
  createdAt : String
  updatedAt : Option String := none
  used : Option Bool := none
  reason : String
deriving DecidableEq, Repr

/-- `SessionApproval`. -/
structure SessionApproval where
  id : String
  toolName : String
  paramsHash : String
  sessionKey : Option String := none
  approvedAt : String
deriving DecidableEq, Repr

/-- `ApprovalStore`. -/
structure ApprovalStore where
  version : Nat
  requests : List ApprovalRecord
  sessionApprovals : List SessionApproval
deriving DecidableEq, Repr

/-- `buildApprovalId(toolName, sessionKey, paramsHash, risk)`:
first 16 hex chars of the SHA-256 of the colon-joined fingerprint. -/
def buildApprovalId (toolName : String) (sessionKey : Option String)
    (paramsHash risk : String) : String :=
  (sha256Hex (toolName ++ ":" ++ sessionKey.getD "" ++ ":" ++ paramsHash ++ ":" ++ risk)).take 16

/-- `buildAskReason(toolName, approvalId, reason, preview)`. -/
def buildAskReason (toolName approvalId reason preview : String) : String :=
  "Firewall approval required for " ++ toolName ++ ".\n" ++
  "Reason: " ++ reason ++ "\n" ++
  "Request ID: " ++ approvalId ++ "\n" ++
  "Args (redacted): " ++ preview ++ "\n" ++
  "Approve: /firewall approve " ++ approvalId ++ " once|session\n" ++
  "Deny: /firewall deny " ++ approvalId

/-- `buildApprovalRecord(params)` (status starts `pending`). -/
def buildApprovalRecord (id toolName paramsHash paramsPreview risk reason : String)
    (sessionKey agentId : Option String) (now : String) : ApprovalRecord :=
  { id := id, toolName := toolName, paramsHash := paramsHash
    paramsPreview := paramsPreview, risk := risk, status := .pending
    createdAt := now, reason := reason
    sessionKey := sessionKey, agentId := agentId }

/-- `buildSessionApproval(id, toolName, paramsHash, sessionKey)`. -/
def buildSessionApproval (id toolName paramsHash : String)
    (sessionKey : Option String) (now : String) : SessionApproval :=
  { id := id, toolName := toolName, paramsHash := paramsHash
    sessionKey := sessionKey, approvedAt := now }

/-- The session-approval lookup predicate used twice in `resolveApproval`. -/
def sessionApprovalMatches (approvalId toolName paramsHash : String)
    (sessionKey : Option String) (a : SessionApproval) : Bool :=
  a.id = approvalId && a.toolName = toolName && a.paramsHash = paramsHash &&
    a.sessionKey = sessionKey

/-- The request lookup predicate used in `resolveApproval`. -/
def requestMatches (approvalId toolName paramsHash : String)
    (e : ApprovalRecord) : Bool :=
  e.id = approvalId && e.toolName = toolName && e.paramsHash = paramsHash

/-- Result triple of `resolveApproval`. -/
structure ApprovalResolution where
  allowed : Bool
  id : String
  scope : Option ApprovalScope := none
deriving DecidableEq, Repr

/-- `resolveApproval` as a pure state transformer over the store.
Returns the resolution, the updated store, and whether
`saveApprovalStore` ran.  `now` stands for `new Date().toISOString()`. -/
def resolveApproval (store : ApprovalStore) (logIsDebug : Bool)
    (decisionRisk decisionReason : String) (ctx : ToolCallContext)
    (toolName paramsHash paramsPreview : String) (now : String) :
    ApprovalResolution × ApprovalStore × Bool :=
  let approvalId := buildApprovalId toolName ctx.sessionKey paramsHash decisionRisk
  let previewForStore := if logIsDebug then paramsPreview else "[redacted]"
  match store.sessionApprovals.find?
      (sessionApprovalMatches approvalId toolName paramsHash ctx.sessionKey) with
  | some _ => ({ allowed := true, id := approvalId, scope := some .session }, store, false)
  | none =>
    match store.requests.find? (requestMatches approvalId toolName paramsHash) with
    | some request =>
      if request.status = .approved then
        if request.scope = some .once && request.used = some true then
          ({ allowed := false, id := approvalId, scope := request.scope }, store, false)
        else
          let store1 :=
            if request.scope = some .session then
              if (store.sessionApprovals.find?
                  (sessionApprovalMatches approvalId toolName paramsHash ctx.sessionKey)).isSome
              then store
              else { store with sessionApprovals := store.sessionApprovals ++
                      [buildSessionApproval approvalId toolName paramsHash ctx.sessionKey now] }
            else store
          let requests2 :=
            updateFirst (requestMatches approvalId toolName paramsHash)
              (fun req =>
                { req with
                  used := if req.scope = some .once then some true else req.used
                  updatedAt := some now })
              store1.requests
          let store2 := { store1 with requests := requests2 }
          ({ allowed := true, id := approvalId, scope := request.scope }, store2, true)
      else
        ({ allowed := false, id := approvalId }, store, false)
    | none =>
      let created := buildApprovalRecord approvalId toolName paramsHash previewForStore
        decisionRisk decisionReason ctx.sessionKey ctx.agentId now
      ({ allowed := false, id := approvalId },
        { store with requests := store.requests ++ [created] }, true)

/-- Hook result of `before_tool_call`: passthrough or block. -/
inductive HookResult where
  | passthrough (params : JsonValue)
  | block (blockReason : String)

/-- The decision = ASK tail of `handleBeforeToolCall`: resolve the
approval; on allow, pass through with the decision rewritten to ALLOW and
reason `Tool call approved by firewall.`; otherwise return the ASK block
built by `buildAskReason`. -/
def handleAskPath (decision : FirewallDecision) (store : ApprovalStore)
    (logIsDebug : Bool) (ctx : ToolCallContext)
    (toolName paramsHash preview : String) (params : JsonValue) (now : String) :
    HookResult × FirewallDecision × ApprovalStore × Bool :=
  let res := resolveApproval store logIsDebug decision.risk.render decision.reason
    ctx toolName paramsHash preview now
  if res.1.allowed then
    (HookResult.passthrough params,
     { decision with decision := .ALLOW, reason := "Tool call approved by firewall." },
     res.2.1, res.2.2)
  else
    (HookResult.block (buildAskReason toolName res.1.id decision.reason preview),
     decision, res.2.1, res.2.2)

/-- `handleBeforeToolCall`, with the path-guard outcome and rate-limit
hit abstracted as inputs (see `precallDecision`): returns the hook result
plus the recorded decision, updated store and save flag. -/
def handleBeforeToolCall (policy : Policy)
    (toolIndex : List (String × NormalizedToolRule)) (eventToolName : String)
    (params : JsonValue) (ctx : ToolCallContext)
    (pathCheck : PathCheckResult) (rateHit : Option RateLimitHitInfo)
    (store : ApprovalStore) (now : String) :
    HookResult × FirewallDecision × ApprovalStore × Bool :=
  let toolName := normalizeToolName eventToolName
  let decision := precallDecision policy toolIndex eventToolName params ctx pathCheck rateHit
  let pv := redactParamsPreview params decision.redactionPlan.redactParams
    policy.defaults.redaction
  match decision.decision with
  | .ALLOW => (HookResult.passthrough params, decision, store, false)
  | .DENY =>
    (HookResult.block ("Firewall denied " ++ toolName ++ ". " ++ decision.reason),
     decision, store, false)
  | .ASK =>
    handleAskPath decision store (policy.defaults.log = .debug) ctx toolName
      pv.2.1 pv.1 params now

/-! ## Chat command `approve` (packages/openclaw/src/commands.ts) -/

/-- `ApprovalHistoryEvent` (status is always `approved`). -/
structure ApprovalHistoryEvent where
  ts : String
  toolName : String
  risk : String
  scope : Option ApprovalScope := none
  approvalId : Option String := none
  paramsHash : Option String := none
  sessionKey : Option String := none
  agentId : Option String := none
deriving DecidableEq, Repr

/-- JS truthiness filter on an optional string field. -/
def truthyStr : Option String → Option String
  | some s => if s = "" then none else some s
  | none => none

/-- `buildApprovalHistoryEvent(record)`. -/
def buildApprovalHistoryEvent (record : ApprovalRecord) (now : String) :
    ApprovalHistoryEvent :=
  { ts := now, toolName := record.toolName, risk := record.risk
    scope := record.scope
    approvalId := truthyStr (some record.id)
    paramsHash := truthyStr (some record.paramsHash)
    sessionKey := truthyStr record.sessionKey
    agentId := truthyStr record.agentId }

/-- Outcome of `approveRequest`: reply text, resulting store, whether the
store was saved, and the history event (appended to the history file and
folded into the rollup) if one was emitted. -/
structure ApproveOutcome where
  replyText : String
  store : ApprovalStore
  storeSaved : Bool
  historyEvent : Option ApprovalHistoryEvent
deriving DecidableEq, Repr

/-- `approveRequest(state, id, scope)`.  `id = none` models a missing
argument (JS falsy check also catches the empty string). -/
def approveRequest (store : ApprovalStore) (id : Option String)
    (scope : Option String) (now : String) : ApproveOutcome :=
  match id with
  | none =>
    { replyText := "Usage: /firewall approve <requestId> once|session"
      store := store, storeSaved := false, historyEvent := none }
  | some id =>
    if id = "" then
      { replyText := "Usage: /firewall approve <requestId> once|session"
        store := store, storeSaved := false, historyEvent := none }
    else
      let resolvedScope : ApprovalScope := if scope = some "session" then .session else .once
      match store.requests.find? (fun entry => entry.id = id) with
      | none =>
        { replyText := "No approval request found for " ++ id ++ "."
          store := store, storeSaved := false, historyEvent := none }
      | some record =>
        let wasApproved := record.status = .approved
        let updated := { record with
          status := .approved, scope := some resolvedScope
          updatedAt := some now, used := some false }
        let requests' :=
          updateFirst (fun entry => entry.id = id)
            (fun r => { r with
              status := .approved, scope := some resolvedScope
              updatedAt := some now, used := some false })
            store.requests
        let store' := { store with requests := requests' }
        { replyText := "Approved " ++ id ++ " (" ++
            (if resolvedScope = .session then "session" else "once") ++ ")."
          store := store', storeSaved := true
          historyEvent :=
            if wasApproved then none else some (buildApprovalHistoryEvent updated now) }

/-! ## Rate limiter (packages/openclaw/src/rate-limit.ts) -/

/-- `RateLimitScope`. -/
inductive RateLimitScope where
  | session
  | global
deriving DecidableEq, Repr

/-- `NormalizedRateLimitRule` (numbers validated positive by
`normalizeRateLimitRules`). -/
structure NormalizedRateLimitRule where
  id : String
  toolName : String
  matchAll : Bool
  maxCalls : Nat
  windowMs : Nat
  action : Decision
  scope : RateLimitScope
deriving DecidableEq, Repr

/-- `RateLimitHit`. -/
structure RateLimitHit where
  rule : NormalizedRateLimitRule
  count : Nat
  key : String
deriving DecidableEq, Repr

/-- `pickMoreRestrictive(current, next)` (the local `rank` equals
`decisionRank`). -/
def pickMoreRestrictive (current : Option RateLimitHit) (next : RateLimitHit) :
    RateLimitHit :=
  match current with
  | none => next
  | some cur =>
    if decisionRank next.rule.action > decisionRank cur.rule.action then next else cur

/-- Buckets map: bucket key to ordered timestamps (ms). -/
abbrev RateBuckets := List (String × List Nat)

def bucketsGet (buckets : RateBuckets) (key : String) : List Nat :=
  (mapGet buckets key).getD []

/-- The `while (timestamps[0] < cutoff) shift()` prune: drop the prefix
of entries older than `now - windowMs` (cutoff as an integer, since it
may be negative). -/
def pruneBucket (timestamps : List Nat) (cutoff : Int) : List Nat :=
  timestamps.dropWhile (fun t => (t : Int) < cutoff)

/-- The loop local `scopeKey`: `sessionKey ?? "no-session"` for session
scope, `"global"` for global scope. -/
def ruleScopeKey (rule : NormalizedRateLimitRule) (sessionKey : Option String) : String :=
  match rule.scope with
  | .session => sessionKey.getD "no-session"
  | .global => "global"

/-- The loop local `bucketKey`. -/
def ruleBucketKey (rule : NormalizedRateLimitRule) (sessionKey : Option String) : String :=
  rule.id ++ ":" ++ ruleScopeKey rule sessionKey

/-- The loop local `pruned`: the rule's bucket after dropping entries
older than `now - windowMs`. -/
def rulePruned (buckets : RateBuckets) (rule : NormalizedRateLimitRule)
    (sessionKey : Option String) (now : Nat) : List Nat :=
  pruneBucket (bucketsGet buckets (ruleBucketKey rule sessionKey))
    ((now : Int) - (rule.windowMs : Int))

/-- The hit condition `count >= rule.maxCalls`, where count is the
pre-append pruned length. -/
def ruleHits (buckets : RateBuckets) (rule : NormalizedRateLimitRule)
    (sessionKey : Option String) (now : Nat) : Prop :=
  (rulePruned buckets rule sessionKey now).length ≥ rule.maxCalls

instance ruleHitsDecidable (buckets : RateBuckets) (rule : NormalizedRateLimitRule)
    (sessionKey : Option String) (now : Nat) :
    Decidable (ruleHits buckets rule sessionKey now) :=
  Nat.decLe rule.maxCalls (rulePruned buckets rule sessionKey now).length

/-- The per-rule body of `evaluate`: prune, count, always append `now`,
record a hit when the pre-append count reaches `maxCalls` (the loop
locals `scopeKey`, `bucketKey`, `pruned` are the named helpers above). -/
def rateEvaluateStep (normalizedTool : String) (sessionKey : Option String)
    (now : Nat) (acc : Option RateLimitHit × RateBuckets)
    (rule : NormalizedRateLimitRule) : Option RateLimitHit × RateBuckets :=
  if !rule.matchAll && rule.toolName ≠ normalizedTool then acc
  else
    let pruned := rulePruned acc.2 rule sessionKey now
    let count := pruned.length
    let buckets' := mapSet acc.2 (ruleBucketKey rule sessionKey) (pruned ++ [now])
    if count ≥ rule.maxCalls then
      (some (pickMoreRestrictive acc.1
        { rule := rule, count := count, key := ruleBucketKey rule sessionKey }),
       buckets')
    else (acc.1, buckets')

/-- `createRateLimiter(rules).evaluate(toolName, sessionKey)` at time
`now`, as a pure transformer of the buckets state. -/
def rateLimiterEvaluate (rules : List NormalizedRateLimitRule)
    (buckets : RateBuckets) (toolName : String) (sessionKey : Option String)
    (now : Nat) : Option RateLimitHit × RateBuckets :=
  if rules.length = 0 then (none, buckets)
  else rules.foldl (rateEvaluateStep (normalizeToolName toolName) sessionKey now)
    (none, buckets)

/-- The rule-matching condition of `evaluate`'s loop:
`!rule.matchAll && rule.toolName !== normalizedTool` skips, so a rule
participates exactly when `matchAll || toolName = normalizedTool`. -/
def ruleMatchesTool (normalizedTool : String) (rule : NormalizedRateLimitRule) : Bool :=
  rule.matchAll || rule.toolName = normalizedTool

/-- Rule and state for the C6 witness: one session-scoped rule,
`maxCalls = 1`, a 60 s window, one fresh entry already in the bucket. -/
def witnessRateRule : NormalizedRateLimitRule :=
  { id := "web_fetch:0", toolName := "web_fetch", matchAll := false
    maxCalls := 1, windowMs := 60000, action := .ASK, scope := .session }

/-! ## Cycle-safe deep redaction on object graphs
(packages/redaction/src/index.ts: `redactValue` / `redactValueWithState`)

JS values may form cyclic object graphs, so here values are an explicit
heap: nodes addressed by index, containers holding child node ids.  The
source's `WeakMap` from visited container to its rewritten counterpart
becomes the `seen` list plus the `out` map, with the counterpart of input
node `i` addressed by the same id `i` (object identity is node identity,
so a re-encountered container yields the same counterpart and the output
mirrors the reference structure, cycles included).  The recursion is
fuel-driven; cycle safety is the theorem that some finite fuel always
suffices. -/

/-- A node of a (possibly cyclic) JS value graph. -/
inductive HeapNode where
  | hstr (s : String)
  | hprim
  | harr (elems : List Nat)
  | hobj (fields : List (String × Nat))
deriving DecidableEq, Repr

abbrev Heap := List HeapNode

/-- A redacted value: an inline string/primitive, or a reference to the
rewritten counterpart of input container `id`. -/
inductive RValue where
  | rstr (s : String)
  | rprim
  | rref (id : Nat)
deriving DecidableEq, Repr

/-- A rewritten container in the output. -/
inductive OutNode where
  | oarr (elems : List RValue)
  | oobj (fields : List (String × RValue))
deriving DecidableEq, Repr

/-- The traversal state: visited input container ids (`WeakMap` keys) and
their rewritten counterparts (`WeakMap` values). -/
structure RedactionState where
  seen : List Nat
  out : List (Nat × OutNode)
deriving DecidableEq, Repr

/-- `Map.set` keyed by node id. -/
def outSet (m : List (Nat × OutNode)) (k : Nat) (v : OutNode) : List (Nat × OutNode) :=
  match m with
  | [] => [(k, v)]
  | (k', v') :: rest => if k' = k then (k, v) :: rest else (k', v') :: outSet rest k v

def outGet (m : List (Nat × OutNode)) (k : Nat) : Option OutNode :=
  (m.find? (fun e => e.1 = k)).map (·.2)

mutual

/-- `redactValueWithState(value, options, state)` on the graph view:
strings through `redactString`; a container first consults the cycle
table (`seen`/`out`) — a hit returns the already-allocated counterpart
(`rref id`) with an empty sub-report; otherwise the counterpart is
allocated, the node is marked visited before recursing (exactly as the
source calls `state.seen.set` before the loop), children are processed in
order with reports merged, and the counterpart is filled in.  `none`
means the fuel ran out (never the case for sufficient fuel, which is the
cycle-safety theorem). -/
def redactValueWithState : Nat → Heap → RedactionOptions → Nat → RedactionState →
    Option ((RValue × RedactionReport) × RedactionState)
  | 0, _, _, _, _ => none
  | fuel + 1, heap, options, id, st =>
    if options.mode = .off then some ((.rref id, emptyReport), st)
    else
      match heap.get? id with
      | none => some ((.rprim, emptyReport), st)
      | some (.hstr s) =>
        let result := redactString s options
        some ((.rstr result.redacted, result.report), st)
      | some .hprim => some ((.rprim, emptyReport), st)
      | some (.harr elems) =>
        if st.seen.contains id then some ((.rref id, emptyReport), st)
        else
          let st1 : RedactionState :=
            { seen := st.seen ++ [id], out := outSet st.out id (.oarr []) }
          match redactArrayElems fuel heap options elems st1 [] emptyReport with
          | none => none
          | some ((vals, report), st2) =>
            some ((.rref id, report), { st2 with out := outSet st2.out id (.oarr vals) })
      | some (.hobj fields) =>
        if st.seen.contains id then some ((.rref id, emptyReport), st)
        else
          let st1 : RedactionState :=
            { seen := st.seen ++ [id], out := outSet st.out id (.oobj []) }
          match redactObjectFields fuel heap options fields st1 [] emptyReport with
          | none => none
          | some ((vals, report), st2) =>
            some ((.rref id, report), { st2 with out := outSet st2.out id (.oobj vals) })

/-- Array children, left to right, pushing each redacted child. -/
def redactArrayElems : Nat → Heap → RedactionOptions → List Nat → RedactionState →
    List RValue → RedactionReport →
    Option ((List RValue × RedactionReport) × RedactionState)
  | 0, _, _, _, _, _, _ => none
  | _ + 1, _, _, [], st, acc, report => some ((acc, report), st)
  | fuel + 1, heap, options, e :: rest, st, acc, report =>
    match redactValueWithState fuel heap options e st with
    | none => none
    | some ((v, r), st') =>
      redactArrayElems fuel heap options rest st' (acc ++ [v]) (mergeReports report r)

/-- Object children by key, in key order. -/
def redactObjectFields : Nat → Heap → RedactionOptions → List (String × Nat) →
    RedactionState → List (String × RValue) → RedactionReport →
    Option ((List (String × RValue) × RedactionReport) × RedactionState)
  | 0, _, _, _, _, _, _ => none
  | _ + 1, _, _, [], st, acc, report => some ((acc, report), st)
  | fuel + 1, heap, options, (k, v) :: rest, st, acc, report =>
    match redactValueWithState fuel heap options v st with
    | none => none
    | some ((rv, r), st') =>
      redactObjectFields fuel heap options rest st' (acc ++ [(k, rv)]) (mergeReports report r)

end

/-- `redactValue(value, options)`: run the traversal from a fresh state
(the `WeakMap` is created per call). -/
def redactValueGraph (fuel : Nat) (heap : Heap) (options : RedactionOptions)
    (root : Nat) : Option ((RValue × RedactionReport) × RedactionState) :=
  redactValueWithState fuel heap options root { seen := [], out := [] }

/-- A concrete base decision used by witnesses. -/
def witnessBaseDecision : FirewallDecision :=
  { decision := .ASK, reason := "base", risk := .read
    redactionPlan := { redactParams := true, redactResult := true }
    scanInjection := true, useExecApprovals := false }

/-- A small concrete policy: deny-unknown off, every risk mapped to ASK. -/
def witnessPolicy : Policy :=
  { mode := "standard"
    defaults :=
      { denyUnknownTools := false, unknownToolAction := .ASK, log := .safe
        redaction := .standard, injectionMode := .alert }
    risk := fun _ => .ASK
    tools := [] }

/-! ## Claim C2: the exec-delegate rewrite and guard-raised ASK -/

/-- The local `decision` after `evaluatePolicy` in `handleBeforeToolCall`. -/
def precallStage0 (policy : Policy) (toolIndex : List (String × NormalizedToolRule))
    (eventToolName : String) (params : JsonValue) (ctx : ToolCallContext) :
    FirewallDecision :=
  evaluatePolicy policy
    { toolName := normalizeToolName eventToolName, params := params, context := ctx }
    toolIndex

/-- The local `decision` after the exec-delegate rewrite. -/
def precallStage1 (policy : Policy) (toolIndex : List (String × NormalizedToolRule))
    (eventToolName : String) (params : JsonValue) (ctx : ToolCallContext) :
    FirewallDecision :=
  execDelegate (normalizeToolName eventToolName)
    (precallStage0 policy toolIndex eventToolName params ctx)

/-- The local `decision` after the path-guard override. -/
def precallStage2 (policy : Policy) (toolIndex : List (String × NormalizedToolRule))
    (eventToolName : String) (params : JsonValue) (ctx : ToolCallContext)
    (pathCheck : PathCheckResult) : FirewallDecision :=
  match evaluatePathGuard (precallStage1 policy toolIndex eventToolName params ctx)
      pathCheck with
  | some ov => ov
  | none => precallStage1 policy toolIndex eventToolName params ctx

/-- A policy index holding the baseline `exec` rule (critical risk, ASK,
`useExecApprovals`). -/
def witnessExecIndex : List (String × NormalizedToolRule) :=
  [("exec",
    { name := "exec", risk := .critical, action := .ASK
      redactParams := true, redactResult := true, scanInjection := true
      useExecApprovals := true })]

/-! ## Claim C5: the reason templates of `evaluatePolicy` -/

/-- The three reason templates asserted by the claim, instantiated at a
tool name over all decisions and risks. -/
def c5ClaimTemplates (toolName : String) : List String :=
  ([Decision.ALLOW, Decision.DENY, Decision.ASK].flatMap (fun d =>
    ("Unknown tool \"" ++ toolName ++ "\" resolved to " ++ d.render
        ++ " by default policy.") ::
      [Risk.read, Risk.write, Risk.critical, Risk.unknown].map (fun r =>
        "Tool \"" ++ toolName ++ "\" (" ++ r.render ++ ") resolved to "
          ++ d.render ++ "."))) ++
  ["Unknown tool \"" ++ toolName ++ "\" denied by default policy."]

/-! ## Claim C3: once-scope approvals grant exactly one consumption -/

/-- The store after a once-scope approval is consumed: the first matching
request gets `used := true` and a fresh `updatedAt`. -/
def consumeOnceStore (store : ApprovalStore) (aid toolName paramsHash now : String) :
    ApprovalStore :=
  let requests' :=
    updateFirst (requestMatches aid toolName paramsHash)
      (fun r => { r with
        used := if r.scope = some ApprovalScope.once then some true else r.used
        updatedAt := some now })
      store.requests
  { store with requests := requests' }

/-- Concrete decision for the C3 witness. -/
def c3Decision : FirewallDecision :=
  { decision := .ASK, reason := "Tool \"write\" (write) resolved to ASK."
    risk := .write
    redactionPlan := { redactParams := true, redactResult := true }
    scanInjection := true, useExecApprovals := false }

/-- Store holding an unconsumed once-scope approval for the C3 witness. -/
def c3Store : ApprovalStore :=
  { version := 1
    requests := [{ id := buildApprovalId "write" (some "s1") "h1" "write"
                   toolName := "write", paramsHash := "h1"
                   paramsPreview := "[redacted]", risk := "write"
                   status := .approved, scope := some .once
                   createdAt := "t0", used := some false
                   reason := "r" }]
    sessionApprovals := [] }

/-- A store holding one consumed once-scope approved request. -/
def witnessStoreUsed : ApprovalStore :=
  { version := 1
    requests := [{ id := "req1", toolName := "write", paramsHash := "h1"
                   paramsPreview := "[redacted]", risk := "write"
                   status := .approved, scope := some .once
                   createdAt := "t0", used := some true, reason := "r" }]
    sessionApprovals := [] }

/-- Failing input for the idempotence claim: a 26-char lowercase run and
a 32-char base64-eligible run of `B`s. -/
def c7Input : String := "abcdefghijklmnopqrstuvwxyz " ++ String.mk (List.replicate 32 'B')

/-- Does `pat` start `s`? (character-list version). -/
def listStartsWith : List Char → List Char → Bool
  | [], _ => true
  | _ :: _, [] => false
  | a :: as, b :: bs => a = b && listStartsWith as bs

/-- Does `pat` occur somewhere in `s`? (character-list version). -/
def listContainsSub (pat : List Char) : List Char → Bool
  | [] => pat.isEmpty
  | c :: cs => listStartsWith pat (c :: cs) || listContainsSub pat cs

/-- Substring test on strings (executable). -/
def strContainsSub (pat s : String) : Bool := listContainsSub pat.data s.data

/-- Does a hook result expose `pat` in user-visible block text?
`passthrough` shows no failure text at all. -/
def hookLeaks (pat : String) : HookResult → Bool
  | .passthrough _ => false
  | .block reason => strContainsSub pat reason

/-- The raw OpenAI-style secret used in the C4 scenarios. -/
def c4RawKey : String := "sk-abcdefghijklmnopqrstuvwx12"

/-- Params carrying the raw secret. -/
def c4Params : JsonValue := .jobj [("api_token", .jstr c4RawKey)]

/-- Defaults shared by the C4 policies (log is `safe`, not `debug`). -/
def c4Defaults (mode : RedactionMode) : PolicyDefaults :=
  { denyUnknownTools := false, unknownToolAction := .ASK, log := .safe
    redaction := mode, injectionMode := .alert }

/-- Policy with redaction `off` (the counterexample's configuration). -/
def c4OffPolicy : Policy :=
  { mode := "standard", defaults := c4Defaults .off
    risk := fun _ => .ASK, tools := [] }

/-- Policy with `standard` redaction. -/
def c4StdPolicy : Policy :=
  { mode := "standard", defaults := c4Defaults .standard
    risk := fun _ => .ASK, tools := [] }

/-- The empty approval store. -/
def c4EmptyStore : ApprovalStore := { version := 1, requests := [], sessionApprovals := [] }

/-- The pre-call outcome in the given redaction mode: unknown tool, policy
risk map sends everything to ASK, no path guard or rate-limit input, empty
store. -/
def c4Run (policy : Policy) : HookResult × FirewallDecision × ApprovalStore × Bool :=
  handleBeforeToolCall policy [] "my_tool" c4Params {}
    { allowed := true, reason := "" } none c4EmptyStore "2024-01-01T00:00:00.000Z"

/-- A one-request store for the amended theorem's witness. -/
def c4WitRecord : ApprovalRecord :=
  { id := "aaaa", toolName := "t", paramsHash := "h"
    paramsPreview := "[redacted]", risk := "low", status := .pending
    createdAt := "now", reason := "r" }

def c4WitStore : ApprovalStore :=
  { version := 1, requests := [c4WitRecord], sessionApprovals := [] }

/-- Is node `id` a container (array or object) of the heap? -/
def containerAt (heap : Heap) (id : Nat) : Bool :=
  match heap.get? id with
  | some (.harr _) => true
  | some (.hobj _) => true
  | _ => false

/-- The number of container nodes not yet visited: the termination
measure of the traversal. -/
def unvisitedCount (heap : Heap) (seen : List Nat) : Nat :=
  (List.range heap.length).countP (fun i => containerAt heap i && !seen.contains i)

/-- A two-node cyclic heap: node 0 is an object whose `self` field refers
back to node 0 (`const x = \x7bname: "root"\x7d; x.self = x`). -/
def cycHeap : Heap := [.hobj [("name", 1), ("self", 0)], .hstr "root"]

/-! ## Theorems -/

theorem decisionRank_injective :
    ∀ a b : Decision, decisionRank a = decisionRank b → a = b := by decide

theorem overrideDecision_decision (current : FirewallDecision)
    (override : Decision) (reason : String) :
    (overrideDecision current override reason).decision
      = maxRankDecision current.decision override := by
  unfold overrideDecision maxRankDecision
  by_cases h : decisionRank override ≤ decisionRank current.decision
  · simp [h, Nat.not_lt.mpr h]
  · simp [h, Nat.lt_of_not_le h]

theorem maxRankDecision_left_comm :
    ∀ a b c : Decision,
      maxRankDecision (maxRankDecision a b) c
        = maxRankDecision (maxRankDecision a c) b := by decide

theorem applyOverrides_decision (base : FirewallDecision)
    (overrides : List (Decision × String)) :
    (applyOverrides base overrides).decision
      = overrides.foldl (fun acc o => maxRankDecision acc o.1) base.decision := by
  induction overrides generalizing base with
  | nil => rfl
  | cons o rest ih =>
    simp only [applyOverrides, List.foldl_cons] at *
    rw [ih (overrideDecision base o.1 o.2), overrideDecision_decision]

/-! ## Shared proof helpers -/

theorem perm_foldl_maxRank (d : Decision) {os os' : List (Decision × String)}
    (h : os.Perm os') :
    os.foldl (fun acc o => maxRankDecision acc o.1) d
      = os'.foldl (fun acc o => maxRankDecision acc o.1) d := by
  induction h generalizing d with
  | nil => rfl
  | cons x _ ih => simp only [List.foldl_cons]; exact ih _
  | swap x y l => simp only [List.foldl_cons]; rw [maxRankDecision_left_comm]
  | trans _ _ ih1 ih2 => exact (ih1 d).trans (ih2 d)

/-! ## Claim C1: override composition is a rank-maximum, commutative
across independent guards -/

/-- C1: in the pre-call pipeline, a guard override is applied iff
`rank(override) > rank(current)` with rank ALLOW=0, ASK=1, DENY=2; the
decision after folding a base decision through any sequence of guard
overrides is the rank-maximum of the base and all overrides (as computed
by the binary rank-max fold), and the final decision is invariant under
reordering of the overrides. -/
theorem override_composition_rank_max :
    (∀ (current : FirewallDecision) (override : Decision) (reason : String),
      (decisionRank override > decisionRank current.decision →
        overrideDecision current override reason
          = { current with decision := override, reason := reason }) ∧
      (¬ decisionRank override > decisionRank current.decision →
        overrideDecision current override reason = current)) ∧
    (∀ (base : FirewallDecision) (overrides : List (Decision × String)),
      (applyOverrides base overrides).decision
        = overrides.foldl (fun acc o => maxRankDecision acc o.1) base.decision) ∧
    (∀ (base : FirewallDecision) (os os' : List (Decision × String)),
      os.Perm os' →
      (applyOverrides base os).decision = (applyOverrides base os').decision) := by
  refine ⟨fun current override reason => ⟨fun h => ?_, fun h => ?_⟩,
    applyOverrides_decision, fun base os os' hperm => ?_⟩
  · unfold overrideDecision
    rw [if_neg (by omega)]
  · unfold overrideDecision
    rw [if_pos (by omega)]
  · rw [applyOverrides_decision, applyOverrides_decision]
    exact perm_foldl_maxRank base.decision hperm

theorem override_composition_rank_max_witness :
    (applyOverrides witnessBaseDecision [(.DENY, "a"), (.ALLOW, "b")]).decision
      = (applyOverrides witnessBaseDecision [(.ALLOW, "b"), (.DENY, "a")]).decision :=
  override_composition_rank_max.2.2 witnessBaseDecision
    [(.DENY, "a"), (.ALLOW, "b")] [(.ALLOW, "b"), (.DENY, "a")]
    (List.Perm.swap ((Decision.ALLOW, "b") : Decision × String) (Decision.DENY, "a") [])

/-! ## Claim C9: `evaluatePolicy` ignores params and context -/

/-- C9: two tool calls whose names normalize identically get identical
`FirewallDecision` values from `evaluatePolicy`, whatever their params and
context: the function reads nothing else from the call. -/
theorem evaluatePolicy_ignores_params_and_context (policy : Policy)
    (toolIndex : List (String × NormalizedToolRule)) (c1 c2 : ToolCall)
    (h : normalizeToolName c1.toolName = normalizeToolName c2.toolName) :
    evaluatePolicy policy c1 toolIndex = evaluatePolicy policy c2 toolIndex := by
  unfold evaluatePolicy
  rw [h]

theorem find?_updateFirst {α : Type} (p : α → Bool) (f : α → α) (l : List α) (x : α)
    (hfind : l.find? p = some x) (hpf : p (f x) = true) :
    (updateFirst p f l).find? p = some (f x) := by
  induction l with
  | nil => simp at hfind
  | cons a rest ih =>
    by_cases hpa : p a = true
    · rw [List.find?_cons_of_pos _ hpa] at hfind
      injection hfind with hax
      subst hax
      unfold updateFirst
      rw [if_pos hpa]
      exact List.find?_cons_of_pos _ hpf
    · rw [List.find?_cons_of_neg _ (by simpa using hpa)] at hfind
      unfold updateFirst
      rw [if_neg (by simpa using hpa), List.find?_cons_of_neg _ (by simpa using hpa)]
      exact ih hfind

theorem updateFirst_of_find?_none {α : Type} (p : α → Bool) (f : α → α) (l : List α)
    (h : l.find? p = none) : updateFirst p f l = l := by
  induction l with
  | nil => rfl
  | cons a rest ih =>
    rw [List.find?_cons] at h
    cases hpa : p a with
    | true => rw [hpa] at h; simp at h
    | false =>
      rw [hpa] at h
      unfold updateFirst
      rw [if_neg (by simp [hpa])]
      rw [ih h]

theorem precallDecision_eq_stages (policy : Policy)
    (toolIndex : List (String × NormalizedToolRule)) (eventToolName : String)
    (params : JsonValue) (ctx : ToolCallContext) (pathCheck : PathCheckResult)
    (rateHit : Option RateLimitHitInfo) :
    precallDecision policy toolIndex eventToolName params ctx pathCheck rateHit
      = (if (precallStage2 policy toolIndex eventToolName params ctx pathCheck).decision
            = .DENY
         then precallStage2 policy toolIndex eventToolName params ctx pathCheck
         else match evaluateRateLimitStage
                (precallStage2 policy toolIndex eventToolName params ctx pathCheck)
                rateHit with
              | some ov => ov
              | none => precallStage2 policy toolIndex eventToolName params ctx pathCheck) :=
  rfl

theorem overrideDecision_ask_ne_allow (d : FirewallDecision) (a : Decision) (r : String)
    (h : d.decision = .ASK) : (overrideDecision d a r).decision ≠ .ALLOW := by
  rw [overrideDecision_decision, h]
  cases a <;> decide

/-- C2: in the pre-call pipeline, when the normalized tool name is
`exec`, the rule delegates exec approvals, and the policy-resolved
decision is ASK, the decision is rewritten to ALLOW with reason exactly
`Exec approval delegated to OpenClaw.`; and the rewrite never applies to
an ASK produced later by a guard: an ASK override from the path guard or
the rate limiter leaves the final decision non-ALLOW. -/
theorem precall_exec_delegate (policy : Policy)
    (toolIndex : List (String × NormalizedToolRule)) (eventToolName : String)
    (params : JsonValue) (ctx : ToolCallContext) (pathCheck : PathCheckResult)
    (rateHit : Option RateLimitHitInfo) :
    ((normalizeToolName eventToolName = "exec" ∧
      (precallStage0 policy toolIndex eventToolName params ctx).useExecApprovals = true ∧
      (precallStage0 policy toolIndex eventToolName params ctx).decision = .ASK) →
      precallStage1 policy toolIndex eventToolName params ctx
        = { precallStage0 policy toolIndex eventToolName params ctx with
              decision := .ALLOW, reason := "Exec approval delegated to OpenClaw." }) ∧
    (∀ ov, evaluatePathGuard (precallStage1 policy toolIndex eventToolName params ctx)
        pathCheck = some ov → ov.decision = .ASK →
      (precallDecision policy toolIndex eventToolName params ctx pathCheck
          rateHit).decision ≠ .ALLOW) ∧
    ((precallStage2 policy toolIndex eventToolName params ctx pathCheck).decision
        ≠ .DENY →
      ∀ ov, evaluateRateLimitStage
          (precallStage2 policy toolIndex eventToolName params ctx pathCheck) rateHit
          = some ov → ov.decision = .ASK →
      (precallDecision policy toolIndex eventToolName params ctx pathCheck
          rateHit).decision = .ASK) := by
  refine ⟨fun h => ?_, fun ov hpg hask => ?_, fun hnd ov hrl hask => ?_⟩
  · unfold precallStage1 execDelegate
    rw [h.1]
    simp only [h.2.1, h.2.2]
    simp
  · have hs2 : precallStage2 policy toolIndex eventToolName params ctx pathCheck = ov := by
      unfold precallStage2
      rw [hpg]
    rw [precallDecision_eq_stages, hs2, hask]
    simp only [reduceCtorEq, if_false]
    cases hrl : evaluateRateLimitStage ov rateHit with
    | none => simp [hask]
    | some ov2 =>
      cases rateHit with
      | none => simp [evaluateRateLimitStage] at hrl
      | some hitInfo =>
        simp only [evaluateRateLimitStage, Option.some.injEq] at hrl
        subst hrl
        exact overrideDecision_ask_ne_allow ov _ _ hask
  · rw [precallDecision_eq_stages, if_neg hnd, hrl, hask]

theorem precall_exec_delegate_witness :
    precallStage1 witnessPolicy witnessExecIndex "exec" (.jobj []) {}
      = { precallStage0 witnessPolicy witnessExecIndex "exec" (.jobj []) {} with
            decision := .ALLOW, reason := "Exec approval delegated to OpenClaw." } :=
  (precall_exec_delegate witnessPolicy witnessExecIndex "exec" (.jobj []) {}
    { allowed := true, reason := "" } none).1 ⟨by decide, by decide, by decide⟩

/-- C5 counterexample: with `denyUnknownTools = false`, the reason for an
unknown tool is `Unknown tool "mystery" evaluated by default policy.`,
which is none of the claim's three templates at any decision or risk. -/
theorem evaluatePolicy_reason_counterexample :
    (evaluatePolicy witnessPolicy
        { toolName := "mystery", params := .jobj [], context := {} } []).reason
      = "Unknown tool \"mystery\" evaluated by default policy." ∧
    ((evaluatePolicy witnessPolicy
        { toolName := "mystery", params := .jobj [], context := {} } []).reason
      ∈ c5ClaimTemplates "mystery") = False := by
  constructor
  · decide
  · simp only [eq_iff_iff, iff_false]
    decide

/-- C5 (amended): the reason string of `evaluatePolicy` is exactly one of
FOUR templates: for a tool with a matching rule,
`Tool "<name>" (<risk>) resolved to <DECISION>.`; for an unknown tool
with `denyUnknownTools` and action DENY,
`Unknown tool "<name>" denied by default policy.`; for an unknown tool
with `denyUnknownTools` and another action,
`Unknown tool "<name>" resolved to <DECISION> by default policy.`; and
when `defaults.denyUnknownTools` is false,
`Unknown tool "<name>" evaluated by default policy.`. -/
theorem evaluatePolicy_reason_templates (policy : Policy) (toolCall : ToolCall)
    (toolIndex : List (String × NormalizedToolRule)) :
    (∃ rule, mapGet toolIndex (normalizeToolName toolCall.toolName) = some rule ∧
      (evaluatePolicy policy toolCall toolIndex).reason
        = "Tool \"" ++ normalizeToolName toolCall.toolName ++ "\" (" ++ rule.risk.render
            ++ ") resolved to " ++ rule.action.render ++ ".") ∨
    (mapGet toolIndex (normalizeToolName toolCall.toolName) = none ∧
      policy.defaults.denyUnknownTools = true ∧
      policy.defaults.unknownToolAction = .DENY ∧
      (evaluatePolicy policy toolCall toolIndex).reason
        = "Unknown tool \"" ++ normalizeToolName toolCall.toolName
            ++ "\" denied by default policy.") ∨
    (mapGet toolIndex (normalizeToolName toolCall.toolName) = none ∧
      policy.defaults.denyUnknownTools = true ∧
      policy.defaults.unknownToolAction ≠ .DENY ∧
      (evaluatePolicy policy toolCall toolIndex).reason
        = "Unknown tool \"" ++ normalizeToolName toolCall.toolName ++ "\" resolved to "
            ++ policy.defaults.unknownToolAction.render ++ " by default policy.") ∨
    (mapGet toolIndex (normalizeToolName toolCall.toolName) = none ∧
      policy.defaults.denyUnknownTools = false ∧
      (evaluatePolicy policy toolCall toolIndex).reason
        = "Unknown tool \"" ++ normalizeToolName toolCall.toolName
            ++ "\" evaluated by default policy.") := by
  cases hrule : mapGet toolIndex (normalizeToolName toolCall.toolName) with
  | some rule =>
    left
    refine ⟨rule, rfl, ?_⟩
    simp only [evaluatePolicy, hrule, buildReason, Option.map_some', Option.getD_some]
  | none =>
    right
    cases hd : policy.defaults.denyUnknownTools with
    | false =>
      right; right
      refine ⟨rfl, rfl, ?_⟩
      simp only [evaluatePolicy, hrule, buildReason, hd, Bool.false_eq_true, if_neg,
        ite_false]
    | true =>
      by_cases hu : policy.defaults.unknownToolAction = .DENY
      · left
        refine ⟨rfl, rfl, hu, ?_⟩
        simp only [evaluatePolicy, hrule, buildReason, hd, if_true, hu, ite_true]
      · right; left
        refine ⟨rfl, rfl, hu, ?_⟩
        simp only [evaluatePolicy, hrule, buildReason, hd, if_true]
        rw [if_neg hu]

/-- C3: on the ASK path, with no matching session approval and a matching
request that is approved with scope `once`: if `used = true` the call is
not allowed, the ASK block is returned, and the store is neither changed
nor saved; if `used = false` the pipeline marks `used := true`, persists
the store, and allows the call (ALLOW with reason
`Tool call approved by firewall.`) — and resolving the same call against
the updated store is no longer allowed, so a once-scope approval grants
passthrough for exactly one consumption. -/
theorem resolveApproval_once_consumption (store : ApprovalStore)
    (logIsDebug : Bool) (decision : FirewallDecision) (ctx : ToolCallContext)
    (toolName paramsHash preview : String) (params : JsonValue) (now : String)
    (req : ApprovalRecord)
    (hsess : store.sessionApprovals.find?
      (sessionApprovalMatches
        (buildApprovalId toolName ctx.sessionKey paramsHash decision.risk.render)
        toolName paramsHash ctx.sessionKey) = none)
    (hreq : store.requests.find?
      (requestMatches
        (buildApprovalId toolName ctx.sessionKey paramsHash decision.risk.render)
        toolName paramsHash) = some req)
    (hst : req.status = .approved)
    (hsc : req.scope = some .once) :
    (req.used = some true →
      resolveApproval store logIsDebug decision.risk.render decision.reason ctx
          toolName paramsHash preview now
        = ({ allowed := false
             id := buildApprovalId toolName ctx.sessionKey paramsHash decision.risk.render
             scope := some .once }, store, false) ∧
      (handleAskPath decision store logIsDebug ctx toolName paramsHash preview
          params now).1
        = HookResult.block (buildAskReason toolName
            (buildApprovalId toolName ctx.sessionKey paramsHash decision.risk.render)
            decision.reason preview)) ∧
    (req.used = some false →
      resolveApproval store logIsDebug decision.risk.render decision.reason ctx
          toolName paramsHash preview now
        = ({ allowed := true
             id := buildApprovalId toolName ctx.sessionKey paramsHash decision.risk.render
             scope := some .once },
           consumeOnceStore store
             (buildApprovalId toolName ctx.sessionKey paramsHash decision.risk.render)
             toolName paramsHash now,
           true) ∧
      (consumeOnceStore store
          (buildApprovalId toolName ctx.sessionKey paramsHash decision.risk.render)
          toolName paramsHash now).requests.find?
          (requestMatches
            (buildApprovalId toolName ctx.sessionKey paramsHash decision.risk.render)
            toolName paramsHash)
        = some { req with used := some true, updatedAt := some now } ∧
      (consumeOnceStore store
          (buildApprovalId toolName ctx.sessionKey paramsHash decision.risk.render)
          toolName paramsHash now).sessionApprovals = store.sessionApprovals ∧
      (handleAskPath decision store logIsDebug ctx toolName paramsHash preview
          params now).1 = HookResult.passthrough params ∧
      (handleAskPath decision store logIsDebug ctx toolName paramsHash preview
          params now).2.1
        = { decision with
            decision := .ALLOW
            reason := "Tool call approved by firewall." } ∧
      (resolveApproval
          (consumeOnceStore store
            (buildApprovalId toolName ctx.sessionKey paramsHash decision.risk.render)
            toolName paramsHash now)
          logIsDebug decision.risk.render decision.reason ctx
          toolName paramsHash preview now).1.allowed = false) := by
  have hrm := List.find?_some hreq
  constructor
  · intro hused
    have hres : resolveApproval store logIsDebug decision.risk.render decision.reason ctx
        toolName paramsHash preview now
      = ({ allowed := false
           id := buildApprovalId toolName ctx.sessionKey paramsHash decision.risk.render
           scope := some .once }, store, false) := by
      unfold resolveApproval
      dsimp only
      rw [hsess, hreq]
      dsimp only
      rw [if_pos hst, if_pos (by rw [hsc, hused]; decide), hsc]
    refine ⟨hres, ?_⟩
    unfold handleAskPath
    rw [hres]
    dsimp only
    rfl
  · intro hused
    have hupd : (consumeOnceStore store
        (buildApprovalId toolName ctx.sessionKey paramsHash decision.risk.render)
        toolName paramsHash now).requests.find?
        (requestMatches
          (buildApprovalId toolName ctx.sessionKey paramsHash decision.risk.render)
          toolName paramsHash)
      = some { req with used := some true, updatedAt := some now } := by
      have hstep := find?_updateFirst
        (requestMatches
          (buildApprovalId toolName ctx.sessionKey paramsHash decision.risk.render)
          toolName paramsHash)
        (fun r => { r with
          used := if r.scope = some ApprovalScope.once then some true else r.used
          updatedAt := some now })
        store.requests req hreq (by simpa [requestMatches] using hrm)
      unfold consumeOnceStore
      dsimp only
      rw [hstep]
      dsimp only
      rw [hsc]
      rw [if_pos rfl]
    have hres : resolveApproval store logIsDebug decision.risk.render decision.reason ctx
        toolName paramsHash preview now
      = ({ allowed := true
           id := buildApprovalId toolName ctx.sessionKey paramsHash decision.risk.render
           scope := some .once },
         consumeOnceStore store
           (buildApprovalId toolName ctx.sessionKey paramsHash decision.risk.render)
           toolName paramsHash now,
         true) := by
      unfold resolveApproval
      dsimp only
      rw [hsess, hreq]
      dsimp only
      rw [if_pos hst, if_neg (by rw [hsc, hused]; decide), if_neg (by rw [hsc]; decide), hsc]
      unfold consumeOnceStore
      dsimp only
    refine ⟨hres, hupd, rfl, ?_, ?_, ?_⟩
    · unfold handleAskPath
      rw [hres]
      dsimp only
      rfl
    · unfold handleAskPath
      rw [hres]
      dsimp only
      rfl
    · unfold resolveApproval
      dsimp only
      rw [show (consumeOnceStore store
          (buildApprovalId toolName ctx.sessionKey paramsHash decision.risk.render)
          toolName paramsHash now).sessionApprovals = store.sessionApprovals from rfl]
      rw [hsess, hupd]
      dsimp only
      rw [if_pos (show ApprovalRecord.status { req with used := some true, updatedAt := some now } = .approved from hst)]
      rw [if_pos (by rw [show ApprovalRecord.scope { req with used := some true, updatedAt := some now } = req.scope from rfl, hsc]; decide)]

set_option maxRecDepth 1000000 in
theorem resolveApproval_once_consumption_witness :
    resolveApproval c3Store false c3Decision.risk.render c3Decision.reason
        { sessionKey := some "s1" } "write" "h1" "[redacted]" "t1"
      = ({ allowed := true
           id := buildApprovalId "write" (some "s1") "h1" c3Decision.risk.render
           scope := some .once },
         consumeOnceStore c3Store
           (buildApprovalId "write" (some "s1") "h1" c3Decision.risk.render)
           "write" "h1" "t1",
         true) :=
  ((resolveApproval_once_consumption c3Store false c3Decision
      { sessionKey := some "s1" } "write" "h1" "[redacted]" (.jobj []) "t1"
      { id := buildApprovalId "write" (some "s1") "h1" "write"
        toolName := "write", paramsHash := "h1"
        paramsPreview := "[redacted]", risk := "write"
        status := .approved, scope := some .once
        createdAt := "t0", used := some false
        reason := "r" }
      (by decide) (by decide) (by decide) (by decide)).2 (by decide)).1

/-! ## Claim C10: the `approve` chat command -/

/-- C10: `approve` with a matching id always sets status approved, scope
from the second argument (`session` only when it is exactly `"session"`,
else `once`), and resets `used := false` whatever the prior status (so a
consumed once-scope approval is re-armed); the store is saved; a history
event (which also drives the rollup update) is emitted iff the prior
status was not already approved; an unmatched id leaves the store
unwritten and unchanged. -/
theorem approveRequest_spec (store : ApprovalStore) (id : String)
    (scope : Option String) (now : String) :
    (id ≠ "" → ∀ record, store.requests.find? (fun entry => entry.id = id) = some record →
      (approveRequest store (some id) scope now).store.requests.find?
          (fun entry => entry.id = id)
        = some { record with
            status := .approved
            scope := some (if scope = some "session" then ApprovalScope.session else .once)
            updatedAt := some now, used := some false } ∧
      (approveRequest store (some id) scope now).store.sessionApprovals
        = store.sessionApprovals ∧
      (approveRequest store (some id) scope now).storeSaved = true ∧
      ((approveRequest store (some id) scope now).historyEvent.isSome
        ↔ record.status ≠ .approved)) ∧
    (id ≠ "" → store.requests.find? (fun entry => entry.id = id) = none →
      approveRequest store (some id) scope now
        = { replyText := "No approval request found for " ++ id ++ "."
            store := store, storeSaved := false, historyEvent := none }) := by
  constructor
  · intro hid record hfind
    have hrec := List.find?_some hfind
    simp only [approveRequest]
    rw [if_neg hid]
    rw [hfind]
    refine ⟨?_, rfl, rfl, ?_⟩
    · exact find?_updateFirst _ _ _ _ hfind (by simpa using hrec)
    · by_cases hst : record.status = .approved
      · simp [hst]
      · simp [hst]
  · intro hid hfind
    simp only [approveRequest]
    rw [if_neg hid, hfind]

theorem approveRequest_spec_witness :
    (approveRequest witnessStoreUsed (some "req1") (some "once") "t1").store.requests.find?
        (fun entry => entry.id = "req1")
      = some { id := "req1", toolName := "write", paramsHash := "h1"
               paramsPreview := "[redacted]", risk := "write"
               status := .approved, scope := some .once
               createdAt := "t0", updatedAt := some "t1", used := some false
               reason := "r" } :=
  ((approveRequest_spec witnessStoreUsed "req1" (some "once") "t1").1 (by decide)
    { id := "req1", toolName := "write", paramsHash := "h1"
      paramsPreview := "[redacted]", risk := "write"
      status := .approved, scope := some .once
      createdAt := "t0", used := some true, reason := "r" } (by decide)).1

theorem evaluatePolicy_ignores_params_and_context_witness :
    evaluatePolicy witnessPolicy
        { toolName := " EXEC ", params := .jobj [("cmd", .jstr "rm")]
          context := { agentId := some "a1", sessionKey := some "s1" } } []
      = evaluatePolicy witnessPolicy
        { toolName := "exec", params := .jnull, context := {} } [] :=
  evaluatePolicy_ignores_params_and_context witnessPolicy []
    { toolName := " EXEC ", params := .jobj [("cmd", .jstr "rm")]
      context := { agentId := some "a1", sessionKey := some "s1" } }
    { toolName := "exec", params := .jnull, context := {} }
    (by decide)

theorem mapGet_mapSet_self {α : Type} (m : List (String × α)) (k : String) (v : α) :
    mapGet (mapSet m k v) k = some v := by
  induction m with
  | nil => simp [mapSet, mapGet, List.find?]
  | cons e rest ih =>
    by_cases hk : e.1 = k
    · simp [mapSet, hk, mapGet, List.find?]
    · simp only [mapSet]
      rw [if_neg hk]
      simp only [mapGet, List.find?] at ih ⊢
      rw [show (decide (e.1 = k)) = false by simpa using hk]
      exact ih

theorem mapGet_mapSet_ne {α : Type} (m : List (String × α)) (k k' : String) (v : α)
    (h : k ≠ k') : mapGet (mapSet m k v) k' = mapGet m k' := by
  induction m with
  | nil => simp [mapSet, mapGet, List.find?, show (decide (k = k')) = false by simpa using h]
  | cons e rest ih =>
    by_cases hk : e.1 = k
    · simp only [mapSet, if_pos hk, mapGet, List.find?]
      rw [show (decide (k = k')) = false by simpa using h]
      rw [show (decide (e.1 = k')) = false by simpa using (hk ▸ h : e.1 ≠ k')]
    · simp only [mapSet, if_neg hk, mapGet, List.find?]
      cases hd : decide (e.1 = k') with
      | true => rfl
      | false => exact ih

theorem pick_rank_ge_next (cur : Option RateLimitHit) (next : RateLimitHit) :
    decisionRank next.rule.action
      ≤ decisionRank (pickMoreRestrictive cur next).rule.action := by
  cases cur with
  | none => simp [pickMoreRestrictive]
  | some c =>
    simp only [pickMoreRestrictive]
    by_cases h : decisionRank next.rule.action > decisionRank c.rule.action
    · rw [if_pos h]
    · rw [if_neg h]; omega

theorem pick_rank_ge_cur (c : RateLimitHit) (next : RateLimitHit) :
    decisionRank c.rule.action
      ≤ decisionRank (pickMoreRestrictive (some c) next).rule.action := by
  simp only [pickMoreRestrictive]
  by_cases h : decisionRank next.rule.action > decisionRank c.rule.action
  · rw [if_pos h]; omega
  · rw [if_neg h]

theorem pick_cases (cur : Option RateLimitHit) (next : RateLimitHit) :
    pickMoreRestrictive cur next = next ∨
      ∃ c, cur = some c ∧ pickMoreRestrictive cur next = c := by
  cases cur with
  | none => left; rfl
  | some c =>
    simp only [pickMoreRestrictive]
    by_cases h : decisionRank next.rule.action > decisionRank c.rule.action
    · left; rw [if_pos h]
    · right; exact ⟨c, rfl, by rw [if_neg h]⟩

theorem step_not_matching (normalizedTool : String) (sessionKey : Option String)
    (now : Nat) (acc : Option RateLimitHit × RateBuckets)
    (rule : NormalizedRateLimitRule)
    (hm : ruleMatchesTool normalizedTool rule = false) :
    rateEvaluateStep normalizedTool sessionKey now acc rule = acc := by
  simp only [ruleMatchesTool, Bool.or_eq_false_iff] at hm
  unfold rateEvaluateStep
  rw [if_pos]
  simp only [hm.1, Bool.not_false, Bool.true_and, ne_eq, decide_not]
  simp [hm.2]

theorem step_matching (normalizedTool : String) (sessionKey : Option String)
    (now : Nat) (acc : Option RateLimitHit × RateBuckets)
    (rule : NormalizedRateLimitRule)
    (hm : ruleMatchesTool normalizedTool rule = true) :
    rateEvaluateStep normalizedTool sessionKey now acc rule
      = (if ruleHits acc.2 rule sessionKey now then
           some (pickMoreRestrictive acc.1
             { rule := rule
               count := (rulePruned acc.2 rule sessionKey now).length
               key := ruleBucketKey rule sessionKey })
         else acc.1,
         mapSet acc.2 (ruleBucketKey rule sessionKey)
           (rulePruned acc.2 rule sessionKey now ++ [now])) := by
  unfold rateEvaluateStep
  rw [if_neg]
  · dsimp only [ruleHits]
    split
    next _ => rfl
    next _ => rfl
  · simp only [ruleMatchesTool, Bool.or_eq_true] at hm
    intro hc
    simp only [Bool.and_eq_true, Bool.not_eq_true'] at hc
    rcases hm with hma | htn
    · simp [hma] at hc
    · rw [decide_eq_true_eq] at hc
      exact hc.2 (by simpa using htn)

theorem rulePruned_mapSet_ne (b : RateBuckets) (k : String) (v : List Nat)
    (r : NormalizedRateLimitRule) (sk : Option String) (now : Nat)
    (h : k ≠ ruleBucketKey r sk) :
    rulePruned (mapSet b k v) r sk now = rulePruned b r sk now := by
  unfold rulePruned
  rw [show bucketsGet (mapSet b k v) (ruleBucketKey r sk)
      = bucketsGet b (ruleBucketKey r sk) from by
    unfold bucketsGet
    rw [mapGet_mapSet_ne _ _ _ _ h]]

theorem ruleHits_mapSet_ne (b : RateBuckets) (k : String) (v : List Nat)
    (r : NormalizedRateLimitRule) (sk : Option String) (now : Nat)
    (h : k ≠ ruleBucketKey r sk) :
    ruleHits (mapSet b k v) r sk now ↔ ruleHits b r sk now := by
  unfold ruleHits
  rw [rulePruned_mapSet_ne _ _ _ _ _ _ h]

theorem rateFold_spec (normalizedTool : String) (sessionKey : Option String) (now : Nat)
    (rs : List NormalizedRateLimitRule) (h0 : Option RateLimitHit) (b : RateBuckets)
    (hnodup : ((rs.filter (ruleMatchesTool normalizedTool)).map
        (fun r => ruleBucketKey r sessionKey)).Nodup) :
    (∀ r ∈ rs, ruleMatchesTool normalizedTool r = true →
      mapGet (rs.foldl (rateEvaluateStep normalizedTool sessionKey now) (h0, b)).2
          (ruleBucketKey r sessionKey)
        = some (rulePruned b r sessionKey now ++ [now])) ∧
    (∀ k, (∀ r ∈ rs, ruleMatchesTool normalizedTool r = true →
        ruleBucketKey r sessionKey ≠ k) →
      mapGet (rs.foldl (rateEvaluateStep normalizedTool sessionKey now) (h0, b)).2 k
        = mapGet b k) ∧
    ((rs.foldl (rateEvaluateStep normalizedTool sessionKey now) (h0, b)).1.isSome
      ↔ (h0.isSome ∨ ∃ r ∈ rs, ruleMatchesTool normalizedTool r = true ∧
          ruleHits b r sessionKey now)) ∧
    (∀ hh, (rs.foldl (rateEvaluateStep normalizedTool sessionKey now) (h0, b)).1
        = some hh →
      (h0 = some hh ∨ (hh.rule ∈ rs ∧ ruleMatchesTool normalizedTool hh.rule = true ∧
          ruleHits b hh.rule sessionKey now)) ∧
      (∀ r ∈ rs, ruleMatchesTool normalizedTool r = true →
        ruleHits b r sessionKey now →
        decisionRank r.action ≤ decisionRank hh.rule.action) ∧
      (∀ g, h0 = some g →
        decisionRank g.rule.action ≤ decisionRank hh.rule.action)) := by
  induction rs generalizing h0 b with
  | nil =>
    refine ⟨by simp, fun k _ => rfl, by simp, fun hh hfold => ?_⟩
    simp only [List.foldl_nil] at hfold
    refine ⟨Or.inl hfold, by simp, fun g hg => ?_⟩
    rw [hfold] at hg
    injection hg with hg
    rw [hg]
  | cons r rest ih =>
    by_cases hm : ruleMatchesTool normalizedTool r = true
    case neg =>
      have hm' : ruleMatchesTool normalizedTool r = false := by
        cases hq : ruleMatchesTool normalizedTool r
        · rfl
        · exact absurd hq hm
      have hfilter : (r :: rest).filter (ruleMatchesTool normalizedTool)
          = rest.filter (ruleMatchesTool normalizedTool) := by
        rw [List.filter_cons_of_neg (by simp [hm'])]
      rw [hfilter] at hnodup
      have hstep : rateEvaluateStep normalizedTool sessionKey now (h0, b) r = (h0, b) :=
        step_not_matching _ _ _ _ _ hm'
      have hfold : (r :: rest).foldl (rateEvaluateStep normalizedTool sessionKey now) (h0, b)
          = rest.foldl (rateEvaluateStep normalizedTool sessionKey now) (h0, b) := by
        rw [List.foldl_cons, hstep]
      obtain ⟨ih1, ih2, ih3, ih4⟩ := ih h0 b hnodup
      rw [hfold]
      refine ⟨?_, ?_, ?_, ?_⟩
      · intro r' hr' hmr'
        rcases List.mem_cons.mp hr' with hEq | hmem
        · subst hEq; exact absurd hmr' hm
        · exact ih1 r' hmem hmr'
      · intro k hk
        exact ih2 k (fun r' hmem hmr' => hk r' (List.mem_cons_of_mem _ hmem) hmr')
      · rw [ih3]
        constructor
        · rintro (hs | ⟨r', hmem, hp⟩)
          · exact Or.inl hs
          · exact Or.inr ⟨r', List.mem_cons_of_mem _ hmem, hp⟩
        · rintro (hs | ⟨r', hmem, hp⟩)
          · exact Or.inl hs
          · rcases List.mem_cons.mp hmem with hEq | hmem'
            · subst hEq; exact absurd hp.1 hm
            · exact Or.inr ⟨r', hmem', hp⟩
      · intro hh hfold'
        obtain ⟨p1, p2, p3⟩ := ih4 hh hfold'
        refine ⟨?_, ?_, p3⟩
        · rcases p1 with hp | ⟨hmem, hmr, hhits⟩
          · exact Or.inl hp
          · exact Or.inr ⟨List.mem_cons_of_mem _ hmem, hmr, hhits⟩
        · intro r' hr' hmr' hhits'
          rcases List.mem_cons.mp hr' with hEq | hmem
          · subst hEq; exact absurd hmr' hm
          · exact p2 r' hmem hmr' hhits'
    case pos =>
      have hfilter : (r :: rest).filter (ruleMatchesTool normalizedTool)
          = r :: rest.filter (ruleMatchesTool normalizedTool) := by
        rw [List.filter_cons_of_pos (by simp [hm])]
      rw [hfilter, List.map_cons, List.nodup_cons] at hnodup
      obtain ⟨hkey_notin, hnodup_rest⟩ := hnodup
      -- the key of r differs from keys of matching rules in rest
      have hkeys_ne : ∀ r' ∈ rest, ruleMatchesTool normalizedTool r' = true →
          ruleBucketKey r sessionKey ≠ ruleBucketKey r' sessionKey := by
        intro r' hmem hmr' hEq
        exact hkey_notin (by
          rw [hEq]
          exact List.mem_map_of_mem _ (List.mem_filter.mpr ⟨hmem, by simp [hmr']⟩))
      -- the step on r
      have hstep := step_matching normalizedTool sessionKey now (h0, b) r hm
      set b1 : RateBuckets := mapSet b (ruleBucketKey r sessionKey)
        (rulePruned b r sessionKey now ++ [now]) with hb1
      set cand : RateLimitHit :=
        { rule := r, count := (rulePruned b r sessionKey now).length
          key := ruleBucketKey r sessionKey } with hcand
      set h1 : Option RateLimitHit :=
        if ruleHits b r sessionKey now then some (pickMoreRestrictive h0 cand) else h0
        with hh1
      have hstep' : rateEvaluateStep normalizedTool sessionKey now (h0, b) r = (h1, b1) := by
        rw [hstep]
      have hfold : (r :: rest).foldl (rateEvaluateStep normalizedTool sessionKey now) (h0, b)
          = rest.foldl (rateEvaluateStep normalizedTool sessionKey now) (h1, b1) := by
        rw [List.foldl_cons, hstep']
      -- transfer pruned/hits from b1 to b for rest rules
      have hpr_transfer : ∀ r' ∈ rest, ruleMatchesTool normalizedTool r' = true →
          rulePruned b1 r' sessionKey now = rulePruned b r' sessionKey now := by
        intro r' hmem hmr'
        exact rulePruned_mapSet_ne _ _ _ _ _ _ (hkeys_ne r' hmem hmr')
      have hhits_transfer : ∀ r' ∈ rest, ruleMatchesTool normalizedTool r' = true →
          (ruleHits b1 r' sessionKey now ↔ ruleHits b r' sessionKey now) := by
        intro r' hmem hmr'
        exact ruleHits_mapSet_ne _ _ _ _ _ _ (hkeys_ne r' hmem hmr')
      obtain ⟨ih1, ih2, ih3, ih4⟩ := ih h1 b1 hnodup_rest
      rw [hfold]
      -- h1 someness characterization
      have h1_some : h1.isSome
          ↔ (h0.isSome ∨ (ruleMatchesTool normalizedTool r = true ∧
              ruleHits b r sessionKey now)) := by
        rw [hh1]
        by_cases hhit : ruleHits b r sessionKey now
        · rw [if_pos hhit]; simp [hm, hhit]
        · rw [if_neg hhit]; simp [hhit]
      refine ⟨?_, ?_, ?_, ?_⟩
      · intro r' hr' hmr'
        rcases List.mem_cons.mp hr' with hEq | hmem
        · subst hEq
          rw [ih2 (ruleBucketKey r' sessionKey)
            (fun r'' hmem'' hmr'' hEq => hkeys_ne r'' hmem'' hmr'' hEq.symm)]
          rw [hb1]
          exact mapGet_mapSet_self _ _ _
        · rw [ih1 r' hmem hmr', hpr_transfer r' hmem hmr']
      · intro k hk
        rw [ih2 k (fun r' hmem hmr' => hk r' (List.mem_cons_of_mem _ hmem) hmr')]
        rw [hb1]
        exact mapGet_mapSet_ne _ _ _ _ (hk r (List.mem_cons_self _ _) hm)
      · rw [ih3, h1_some]
        constructor
        · rintro ((hs | ⟨hmr, hhit⟩) | ⟨r', hmem, hmr', hhit'⟩)
          · exact Or.inl hs
          · exact Or.inr ⟨r, List.mem_cons_self _ _, hmr, hhit⟩
          · exact Or.inr ⟨r', List.mem_cons_of_mem _ hmem,
              hmr', (hhits_transfer r' hmem hmr').mp hhit'⟩
        · rintro (hs | ⟨r', hmem, hmr', hhit'⟩)
          · exact Or.inl (Or.inl hs)
          · rcases List.mem_cons.mp hmem with hEq | hmem'
            · subst hEq; exact Or.inl (Or.inr ⟨hmr', hhit'⟩)
            · exact Or.inr ⟨r', hmem', hmr',
                (hhits_transfer r' hmem' hmr').mpr hhit'⟩
      · intro hh hfold'
        obtain ⟨p1, p2, p3⟩ := ih4 hh hfold'
        -- rank of h1's payload bounds below rank of hh
        have h1_rank : ∀ g, h1 = some g →
            decisionRank g.rule.action ≤ decisionRank hh.rule.action := p3
        refine ⟨?_, ?_, ?_⟩
        · -- provenance
          rcases p1 with hp | ⟨hmem, hmr, hhits'⟩
          · -- h1 = some hh
            rw [hh1] at hp
            by_cases hhit : ruleHits b r sessionKey now
            · rw [if_pos hhit] at hp
              injection hp with hp
              rcases pick_cases h0 cand with hpk | ⟨c, hc, hpk⟩
              · right
                have hhc : hh = cand := by rw [← hp, hpk]
                rw [hhc]
                exact ⟨List.mem_cons_self _ _, hm, hhit⟩
              · left
                have hch : c = hh := hpk.symm.trans hp
                rw [hc, hch]
            · rw [if_neg hhit] at hp
              exact Or.inl hp
          · exact Or.inr ⟨List.mem_cons_of_mem _ hmem, hmr,
              (hhits_transfer hh.rule hmem hmr).mp hhits'⟩
        · -- max rank over r :: rest
          intro r' hr' hmr' hhits'
          rcases List.mem_cons.mp hr' with hEq | hmem
          · subst hEq
            have hh1some : h1 = some (pickMoreRestrictive h0 cand) := by
              rw [hh1, if_pos hhits']
            exact le_trans (pick_rank_ge_next h0 cand) (h1_rank _ hh1some)
          · exact p2 r' hmem hmr' ((hhits_transfer r' hmem hmr').mpr hhits')
        · -- h0 bound
          intro g hg
          by_cases hhit : ruleHits b r sessionKey now
          · have hh1some : h1 = some (pickMoreRestrictive h0 cand) := by
              rw [hh1, if_pos hhit]
            rw [hg] at hh1some
            exact le_trans (pick_rank_ge_cur g cand) (h1_rank _ hh1some)
          · have hh1some : h1 = some g := by rw [hh1, if_neg hhit, hg]
            exact h1_rank g hh1some

/-- C6: for every rule list and state, `evaluate(tool, sessionKey)` at a
given time (with distinct bucket keys among the matching rules, as holds
for `normalizeRateLimitRules` output): a matching rule records a hit iff
after dropping entries older than `now - windowMs` its bucket already
holds at least `maxCalls` entries; the current timestamp is always
appended to every matching rule's bucket; and a returned hit belongs to a
matching rule that hit, carrying the most restrictive action among all
rules that hit (DENY over ASK). -/
theorem rateLimiter_evaluate_spec (rules : List NormalizedRateLimitRule)
    (buckets : RateBuckets) (toolName : String) (sessionKey : Option String)
    (now : Nat)
    (hnodup : ((rules.filter (ruleMatchesTool (normalizeToolName toolName))).map
        (fun r => ruleBucketKey r sessionKey)).Nodup) :
    (∀ r ∈ rules, ruleMatchesTool (normalizeToolName toolName) r = true →
      mapGet (rateLimiterEvaluate rules buckets toolName sessionKey now).2
          (ruleBucketKey r sessionKey)
        = some (rulePruned buckets r sessionKey now ++ [now])) ∧
    ((rateLimiterEvaluate rules buckets toolName sessionKey now).1.isSome
      ↔ ∃ r ∈ rules, ruleMatchesTool (normalizeToolName toolName) r = true ∧
          ruleHits buckets r sessionKey now) ∧
    (∀ hh, (rateLimiterEvaluate rules buckets toolName sessionKey now).1 = some hh →
      (hh.rule ∈ rules ∧ ruleMatchesTool (normalizeToolName toolName) hh.rule = true ∧
        ruleHits buckets hh.rule sessionKey now) ∧
      (∀ r ∈ rules, ruleMatchesTool (normalizeToolName toolName) r = true →
        ruleHits buckets r sessionKey now →
        decisionRank r.action ≤ decisionRank hh.rule.action)) := by
  cases rules with
  | nil =>
    refine ⟨by simp, ?_, ?_⟩
    · simp [rateLimiterEvaluate]
    · intro hh hfold
      simp [rateLimiterEvaluate] at hfold
  | cons r0 rest =>
    have hlen : ¬((r0 :: rest).length = 0) := by simp
    have heval : rateLimiterEvaluate (r0 :: rest) buckets toolName sessionKey now
        = (r0 :: rest).foldl
            (rateEvaluateStep (normalizeToolName toolName) sessionKey now)
            (none, buckets) := by
      unfold rateLimiterEvaluate
      rw [if_neg hlen]
    obtain ⟨f1, _, f3, f4⟩ :=
      rateFold_spec (normalizeToolName toolName) sessionKey now (r0 :: rest)
        none buckets hnodup
    rw [heval]
    refine ⟨f1, ?_, ?_⟩
    · rw [f3]
      simp
    · intro hh hfold
      obtain ⟨p1, p2, _⟩ := f4 hh hfold
      refine ⟨?_, p2⟩
      rcases p1 with hp | hp
      · exact absurd hp (by simp)
      · exact hp

theorem rateLimiter_evaluate_spec_witness :
    (rateLimiterEvaluate [witnessRateRule] [("web_fetch:0:s1", [950])]
        "web_fetch" (some "s1") 1000).1.isSome = true :=
  (rateLimiter_evaluate_spec [witnessRateRule] [("web_fetch:0:s1", [950])]
      "web_fetch" (some "s1") 1000 (by decide)).2.1.mpr
    ⟨witnessRateRule, by decide, by decide, by decide⟩

set_option maxRecDepth 1000000 in
/-- C7 (code bug): strict-mode `redactString` is NOT idempotent. On
`c7Input` the first pass leaves `abcdefghijklmnopqrstuvwxyz` alone (no
digit on the line, so `STRICT_TOKEN_RE`'s `(?=.*\d)` lookahead fails) and
rewrites the `B` run to `[REDACTED:strict_base64:425ed4e4]`; the second
pass then sees digits from that token's hash8 on the line, so the
lookahead now succeeds and the word is rewritten too — the output
changes. -/
theorem redactString_strict_not_idempotent :
    (redactString c7Input { mode := .strict }).redacted
      = "abcdefghijklmnopqrstuvwxyz [REDACTED:strict_base64:425ed4e4]" ∧
    (redactString (redactString c7Input { mode := .strict }).redacted
        { mode := .strict }).redacted
      = "[REDACTED:strict_token:71c480df] [REDACTED:strict_base64:425ed4e4]" ∧
    (redactString (redactString c7Input { mode := .strict }).redacted
        { mode := .strict }).redacted
      ≠ (redactString c7Input { mode := .strict }).redacted := by
  have h1 : (redactString c7Input { mode := .strict }).redacted
      = "abcdefghijklmnopqrstuvwxyz [REDACTED:strict_base64:425ed4e4]" := by decide
  have h2 : (redactString (redactString c7Input { mode := .strict }).redacted
        { mode := .strict }).redacted
      = "[REDACTED:strict_token:71c480df] [REDACTED:strict_base64:425ed4e4]" := by decide
  refine ⟨h1, h2, ?_⟩
  rw [h2, h1]
  decide

theorem mem_updateFirst {α : Type} (p : α → Bool) (f : α → α) (l : List α) (r : α)
    (h : r ∈ updateFirst p f l) : r ∈ l ∨ ∃ x ∈ l, r = f x := by
  induction l with
  | nil => simp [updateFirst] at h
  | cons a rest ih =>
    simp only [updateFirst] at h
    by_cases hpa : p a = true
    · rw [if_pos hpa] at h
      rcases List.mem_cons.mp h with hEq | hmem
      · exact Or.inr ⟨a, List.mem_cons_self _ _, hEq⟩
      · exact Or.inl (List.mem_cons_of_mem _ hmem)
    · rw [if_neg hpa] at h
      rcases List.mem_cons.mp h with hEq | hmem
      · exact Or.inl (hEq ▸ List.mem_cons_self _ _)
      · rcases ih hmem with hmem' | ⟨x, hx, hfx⟩
        · exact Or.inl (List.mem_cons_of_mem _ hmem')
        · exact Or.inr ⟨x, List.mem_cons_of_mem _ hx, hfx⟩

set_option maxRecDepth 1000000 in
/-- C4 counterexample: with `defaults.redaction = "off"` the ASK block
reason leaks the raw secret verbatim — `redactParamsPreview` returns the
raw serialized params when the mode is off, and `buildAskReason` embeds
that preview in the user-visible text. (The stored record still holds
`[redacted]`.) -/
theorem off_mode_block_reason_leaks_secret :
    hookLeaks c4RawKey (c4Run c4OffPolicy).1 = true := by decide

set_option maxRecDepth 1000000 in
/-- C4 (amended): the approval store never gains a raw preview when
`defaults.log` is not `debug` — every record in the store after
`resolveApproval` either keeps the preview of a pre-existing record or is
literally `"[redacted]"` (universal over stores and inputs); and in the
concrete standard-mode scenario the ASK block reason carries the
`[REDACTED:openai_key:...]` token and not the raw secret, and the stored
record's preview is `"[redacted]"`. With redaction off the block reason
does leak (see the counterexample), so the amended claim drops "for every
redaction mode including off" from the block-reason part. -/
theorem preview_redaction_spec :
    (∀ (store : ApprovalStore) (risk reason : String) (ctx : ToolCallContext)
        (toolName paramsHash preview now : String),
      ∀ r ∈ (resolveApproval store false risk reason ctx toolName paramsHash
          preview now).2.1.requests,
        (∃ r0 ∈ store.requests, r.paramsPreview = r0.paramsPreview) ∨
          r.paramsPreview = "[redacted]") ∧
    hookLeaks c4RawKey (c4Run c4StdPolicy).1 = false ∧
    hookLeaks "[REDACTED:openai_key:" (c4Run c4StdPolicy).1 = true ∧
    ((c4Run c4StdPolicy).2.2.1.requests.all
      (fun r => r.paramsPreview = "[redacted]")) = true := by
  refine ⟨?_, by decide, by decide, by decide⟩
  intro store risk reason ctx toolName paramsHash preview now r hr
  unfold resolveApproval at hr
  dsimp only at hr
  cases hsess : store.sessionApprovals.find?
      (sessionApprovalMatches
        (buildApprovalId toolName ctx.sessionKey paramsHash risk)
        toolName paramsHash ctx.sessionKey) with
  | some a =>
    rw [hsess] at hr
    dsimp only at hr
    exact Or.inl ⟨r, hr, rfl⟩
  | none =>
    rw [hsess] at hr
    dsimp only at hr
    cases hreq : store.requests.find?
        (requestMatches
          (buildApprovalId toolName ctx.sessionKey paramsHash risk)
          toolName paramsHash) with
    | some request =>
      rw [hreq] at hr
      dsimp only at hr
      by_cases happ : request.status = .approved
      · rw [if_pos happ] at hr
        by_cases honce : (request.scope = some .once && request.used = some true) = true
        · rw [if_pos honce] at hr
          dsimp only at hr
          exact Or.inl ⟨r, hr, rfl⟩
        · rw [if_neg honce] at hr
          dsimp only at hr
          rcases mem_updateFirst _ _ _ _ hr with hmem | ⟨x, hx, hfx⟩
          · exact Or.inl ⟨r, by
              by_cases hscope : request.scope = some ApprovalScope.session
              · simp only [if_pos hscope] at hmem
                split at hmem <;> exact hmem
              · simp only [if_neg hscope] at hmem
                exact hmem, rfl⟩
          · have hx' : x ∈ store.requests := by
              by_cases hscope : request.scope = some ApprovalScope.session
              · simp only [if_pos hscope] at hx
                split at hx <;> exact hx
              · simp only [if_neg hscope] at hx
                exact hx
            exact Or.inl ⟨x, hx', by rw [hfx]⟩
      · rw [if_neg happ] at hr
        dsimp only at hr
        exact Or.inl ⟨r, hr, rfl⟩
    | none =>
      rw [hreq] at hr
      dsimp only at hr
      rcases List.mem_append.mp hr with hmem | hnew
      · exact Or.inl ⟨r, hmem, rfl⟩
      · rcases List.mem_singleton.mp hnew with rfl
        exact Or.inr rfl

set_option maxRecDepth 1000000 in
theorem preview_redaction_spec_witness :
    (∃ r0 ∈ c4WitStore.requests,
        (buildApprovalRecord
          (buildApprovalId "t2" none "h2" "low") "t2" "h2" "[redacted]" "low" "r2"
          none none "now2").paramsPreview = r0.paramsPreview) ∨
      (buildApprovalRecord
        (buildApprovalId "t2" none "h2" "low") "t2" "h2" "[redacted]" "low" "r2"
        none none "now2").paramsPreview = "[redacted]" :=
  preview_redaction_spec.1 c4WitStore "low" "r2" {} "t2" "h2" "RAWPREVIEW" "now2"
    (buildApprovalRecord
      (buildApprovalId "t2" none "h2" "low") "t2" "h2" "[redacted]" "low" "r2"
      none none "now2")
    (by decide)

theorem countP_imp_le {α : Type} (p q : α → Bool) (l : List α)
    (h : ∀ a ∈ l, p a = true → q a = true) : l.countP p ≤ l.countP q := by
  induction l with
  | nil => simp
  | cons a rest ih =>
    rw [List.countP_cons, List.countP_cons]
    have hrest := ih (fun x hx => h x (List.mem_cons_of_mem _ hx))
    have hif : (if p a = true then 1 else 0) ≤ (if q a = true then 1 else 0) := by
      by_cases hpa : p a = true
      · rw [if_pos hpa, if_pos (h a (List.mem_cons_self _ _) hpa)]
      · rw [if_neg hpa]
        exact Nat.zero_le _
    omega

theorem countP_lt_of_mem {α : Type} [DecidableEq α] (p : α → Bool) (l : List α) (a : α)
    (hmem : a ∈ l) (hpa : p a = true) :
    l.countP (fun x => p x && !(x = a : Bool)) < l.countP p := by
  induction l with
  | nil => simp at hmem
  | cons b rest ih =>
    rw [List.countP_cons, List.countP_cons]
    have hle : rest.countP (fun x => p x && !(x = a : Bool)) ≤ rest.countP p :=
      countP_imp_le _ _ rest (fun x _ hx => by
        rw [Bool.and_eq_true] at hx
        exact hx.1)
    by_cases hba : b = a
    · subst hba
      have h1 : (p b && !(b = b : Bool)) = false := by simp
      rw [h1, hpa]
      have e1 : (if (false = true) then 1 else 0) = 0 := by simp
      have e2 : (if (true = true) then 1 else 0) = 1 := by simp
      rw [e1, e2]
      omega
    · rcases List.mem_cons.mp hmem with hEq | hmem'
      · exact absurd hEq.symm hba
      · have hlt := ih hmem'
        have hif : (if (p b && !(b = a : Bool)) = true then 1 else 0)
            ≤ (if p b = true then 1 else 0) := by
          by_cases hq : (p b && !(b = a : Bool)) = true
          · rw [if_pos hq, if_pos (by rw [Bool.and_eq_true] at hq; exact hq.1)]
          · rw [if_neg hq]
            exact Nat.zero_le _
        omega

theorem contains_false_iff (l : List Nat) (a : Nat) :
    l.contains a = false ↔ a ∉ l := by
  simp

theorem unvisited_mono (heap : Heap) (seen ext : List Nat) :
    unvisitedCount heap (seen ++ ext) ≤ unvisitedCount heap seen := by
  unfold unvisitedCount
  apply countP_imp_le
  intro i _ h
  rw [Bool.and_eq_true] at h
  rw [Bool.and_eq_true]
  refine ⟨h.1, ?_⟩
  have h2 : i ∉ seen ++ ext := by
    have := h.2
    rw [Bool.not_eq_true'] at this
    exact (contains_false_iff _ _).mp this
  rw [Bool.not_eq_true']
  exact (contains_false_iff _ _).mpr (fun hmem => h2 (List.mem_append_left _ hmem))

theorem containerAt_lt (heap : Heap) (id : Nat) (h : containerAt heap id = true) :
    id < heap.length := by
  unfold containerAt at h
  cases hg : heap.get? id with
  | none => rw [hg] at h; simp at h
  | some n =>
    obtain ⟨hl, _⟩ := List.get?_eq_some.mp hg
    exact hl

theorem unvisited_strict (heap : Heap) (seen : List Nat) (id : Nat)
    (hc : containerAt heap id = true) (hn : seen.contains id = false) :
    unvisitedCount heap (seen ++ [id]) < unvisitedCount heap seen := by
  unfold unvisitedCount
  have hmem : id ∈ List.range heap.length := List.mem_range.mpr (containerAt_lt heap id hc)
  have hstep := countP_lt_of_mem
    (fun i => containerAt heap i && !seen.contains i) (List.range heap.length) id hmem
    (by rw [Bool.and_eq_true, hn]; exact ⟨hc, rfl⟩)
  refine lt_of_le_of_lt ?_ hstep
  apply countP_imp_le
  intro i _ h
  rw [Bool.and_eq_true] at h
  have h2 : i ∉ seen ++ [id] := by
    have := h.2
    rw [Bool.not_eq_true'] at this
    exact (contains_false_iff _ _).mp this
  rw [Bool.and_eq_true, Bool.and_eq_true]
  refine ⟨⟨h.1, ?_⟩, ?_⟩
  · rw [Bool.not_eq_true']
    exact (contains_false_iff _ _).mpr (fun hmem => h2 (List.mem_append_left _ hmem))
  · have hne : i ≠ id := fun hEq =>
      h2 (List.mem_append_right _ (hEq ▸ List.mem_singleton_self id))
    rw [Bool.not_eq_true']
    exact decide_eq_false hne

theorem seen_mono (heap : Heap) (options : RedactionOptions) : ∀ fuel : Nat,
    (∀ id st res st', redactValueWithState fuel heap options id st = some (res, st') →
      ∃ ext, st'.seen = st.seen ++ ext) ∧
    (∀ elems st acc rep res st',
      redactArrayElems fuel heap options elems st acc rep = some (res, st') →
      ∃ ext, st'.seen = st.seen ++ ext) ∧
    (∀ fields st acc rep res st',
      redactObjectFields fuel heap options fields st acc rep = some (res, st') →
      ∃ ext, st'.seen = st.seen ++ ext) := by
  intro fuel
  induction fuel with
  | zero =>
    refine ⟨?_, ?_, ?_⟩
    · intro id st res st' h
      simp [redactValueWithState] at h
    · intro elems st acc rep res st' h
      simp [redactArrayElems] at h
    · intro fields st acc rep res st' h
      simp [redactObjectFields] at h
  | succ fuel ih =>
    obtain ⟨ihV, ihA, ihO⟩ := ih
    refine ⟨?_, ?_, ?_⟩
    · intro id st res st' h
      unfold redactValueWithState at h
      by_cases hoff : options.mode = RedactionMode.off
      · rw [if_pos hoff] at h
        injection h with h
        injection h with _ h2
        exact ⟨[], by rw [← h2, List.append_nil]⟩
      · rw [if_neg hoff] at h
        cases hg : heap.get? id with
        | none =>
          rw [hg] at h
          injection h with h
          injection h with _ h2
          exact ⟨[], by rw [← h2, List.append_nil]⟩
        | some node =>
          rw [hg] at h
          cases node with
          | hstr s =>
            injection h with h
            injection h with _ h2
            exact ⟨[], by rw [← h2, List.append_nil]⟩
          | hprim =>
            injection h with h
            injection h with _ h2
            exact ⟨[], by rw [← h2, List.append_nil]⟩
          | harr elems =>
            dsimp only at h
            by_cases hseen : st.seen.contains id = true
            · rw [if_pos hseen] at h
              injection h with h
              injection h with _ h2
              exact ⟨[], by rw [← h2, List.append_nil]⟩
            · rw [if_neg hseen] at h
              cases hrec : redactArrayElems fuel heap options elems
                  { seen := st.seen ++ [id], out := outSet st.out id (.oarr []) }
                  [] emptyReport with
              | none => rw [hrec] at h; exact absurd h (by simp)
              | some r2 =>
                obtain ⟨⟨vals, report⟩, st2⟩ := r2
                rw [hrec] at h
                dsimp only at h
                injection h with h
                injection h with _ h2
                obtain ⟨ext, hext⟩ := ihA elems _ [] emptyReport _ _ hrec
                refine ⟨[id] ++ ext, ?_⟩
                rw [← h2]
                dsimp only at hext ⊢
                rw [hext, List.append_assoc]
          | hobj fields =>
            dsimp only at h
            by_cases hseen : st.seen.contains id = true
            · rw [if_pos hseen] at h
              injection h with h
              injection h with _ h2
              exact ⟨[], by rw [← h2, List.append_nil]⟩
            · rw [if_neg hseen] at h
              cases hrec : redactObjectFields fuel heap options fields
                  { seen := st.seen ++ [id], out := outSet st.out id (.oobj []) }
                  [] emptyReport with
              | none => rw [hrec] at h; exact absurd h (by simp)
              | some r2 =>
                obtain ⟨⟨vals, report⟩, st2⟩ := r2
                rw [hrec] at h
                dsimp only at h
                injection h with h
                injection h with _ h2
                obtain ⟨ext, hext⟩ := ihO fields _ [] emptyReport _ _ hrec
                refine ⟨[id] ++ ext, ?_⟩
                rw [← h2]
                dsimp only at hext ⊢
                rw [hext, List.append_assoc]
    · intro elems st acc rep res st' h
      cases elems with
      | nil =>
        unfold redactArrayElems at h
        injection h with h
        injection h with _ h2
        exact ⟨[], by rw [← h2, List.append_nil]⟩
      | cons e rest =>
        unfold redactArrayElems at h
        cases hrec : redactValueWithState fuel heap options e st with
        | none => rw [hrec] at h; exact absurd h (by simp)
        | some r1 =>
          obtain ⟨⟨v, r⟩, st1⟩ := r1
          rw [hrec] at h
          dsimp only at h
          obtain ⟨ext1, hext1⟩ := ihV e st _ _ hrec
          obtain ⟨ext2, hext2⟩ := ihA rest st1 _ _ _ _ h
          exact ⟨ext1 ++ ext2, by rw [hext2, hext1, List.append_assoc]⟩
    · intro fields st acc rep res st' h
      cases fields with
      | nil =>
        unfold redactObjectFields at h
        injection h with h
        injection h with _ h2
        exact ⟨[], by rw [← h2, List.append_nil]⟩
      | cons f rest =>
        obtain ⟨k, v⟩ := f
        unfold redactObjectFields at h
        cases hrec : redactValueWithState fuel heap options v st with
        | none => rw [hrec] at h; exact absurd h (by simp)
        | some r1 =>
          obtain ⟨⟨rv, r⟩, st1⟩ := r1
          rw [hrec] at h
          dsimp only at h
          obtain ⟨ext1, hext1⟩ := ihV v st _ _ hrec
          obtain ⟨ext2, hext2⟩ := ihO rest st1 _ _ _ _ h
          exact ⟨ext1 ++ ext2, by rw [hext2, hext1, List.append_assoc]⟩

theorem fuel_stable (heap : Heap) (options : RedactionOptions) : ∀ fuel : Nat,
    (∀ id st r, redactValueWithState fuel heap options id st = some r →
      redactValueWithState (fuel + 1) heap options id st = some r) ∧
    (∀ elems st acc rep r, redactArrayElems fuel heap options elems st acc rep = some r →
      redactArrayElems (fuel + 1) heap options elems st acc rep = some r) ∧
    (∀ fields st acc rep r, redactObjectFields fuel heap options fields st acc rep = some r →
      redactObjectFields (fuel + 1) heap options fields st acc rep = some r) := by
  intro fuel
  induction fuel with
  | zero =>
    refine ⟨?_, ?_, ?_⟩
    · intro id st r h
      simp [redactValueWithState] at h
    · intro elems st acc rep r h
      simp [redactArrayElems] at h
    · intro fields st acc rep r h
      simp [redactObjectFields] at h
  | succ fuel ih =>
    obtain ⟨ihV, ihA, ihO⟩ := ih
    refine ⟨?_, ?_, ?_⟩
    · intro id st r h
      rw [show fuel + 1 + 1 = (fuel + 1) + 1 from rfl]
      unfold redactValueWithState at h ⊢
      by_cases hoff : options.mode = RedactionMode.off
      · rw [if_pos hoff] at h ⊢
        exact h
      · rw [if_neg hoff] at h ⊢
        cases hg : heap.get? id with
        | none => rw [hg] at h; exact h
        | some node =>
          rw [hg] at h
          cases node with
          | hstr s => exact h
          | hprim => exact h
          | harr elems =>
            dsimp only at h ⊢
            by_cases hseen : st.seen.contains id = true
            · rw [if_pos hseen] at h ⊢
              exact h
            · rw [if_neg hseen] at h ⊢
              cases hrec : redactArrayElems fuel heap options elems
                  { seen := st.seen ++ [id], out := outSet st.out id (.oarr []) }
                  [] emptyReport with
              | none => rw [hrec] at h; exact absurd h (by simp)
              | some r2 =>
                rw [hrec] at h
                rw [ihA elems _ [] emptyReport r2 hrec]
                exact h
          | hobj fields =>
            dsimp only at h ⊢
            by_cases hseen : st.seen.contains id = true
            · rw [if_pos hseen] at h ⊢
              exact h
            · rw [if_neg hseen] at h ⊢
              cases hrec : redactObjectFields fuel heap options fields
                  { seen := st.seen ++ [id], out := outSet st.out id (.oobj []) }
                  [] emptyReport with
              | none => rw [hrec] at h; exact absurd h (by simp)
              | some r2 =>
                rw [hrec] at h
                rw [ihO fields _ [] emptyReport r2 hrec]
                exact h
    · intro elems st acc rep r h
      cases elems with
      | nil =>
        unfold redactArrayElems at h ⊢
        exact h
      | cons e rest =>
        rw [show fuel + 1 + 1 = (fuel + 1) + 1 from rfl]
        unfold redactArrayElems at h ⊢
        cases hrec : redactValueWithState fuel heap options e st with
        | none => rw [hrec] at h; exact absurd h (by simp)
        | some r1 =>
          obtain ⟨⟨v, rr⟩, st1⟩ := r1
          rw [hrec] at h
          rw [ihV e st _ hrec]
          dsimp only at h ⊢
          exact ihA rest st1 _ _ r h
    · intro fields st acc rep r h
      cases fields with
      | nil =>
        unfold redactObjectFields at h ⊢
        exact h
      | cons f rest =>
        obtain ⟨k, v⟩ := f
        rw [show fuel + 1 + 1 = (fuel + 1) + 1 from rfl]
        unfold redactObjectFields at h ⊢
        cases hrec : redactValueWithState fuel heap options v st with
        | none => rw [hrec] at h; exact absurd h (by simp)
        | some r1 =>
          obtain ⟨⟨rv, rr⟩, st1⟩ := r1
          rw [hrec] at h
          rw [ihV v st _ hrec]
          dsimp only at h ⊢
          exact ihO rest st1 _ _ r h

theorem value_fuel_le (heap : Heap) (options : RedactionOptions)
    {fuel fuel' : Nat} (hle : fuel ≤ fuel') (id : Nat) (st : RedactionState)
    (r : (RValue × RedactionReport) × RedactionState)
    (h : redactValueWithState fuel heap options id st = some r) :
    redactValueWithState fuel' heap options id st = some r := by
  induction fuel' with
  | zero =>
    have : fuel = 0 := Nat.le_zero.mp hle
    rw [← this]
    exact h
  | succ n ih =>
    rcases Nat.lt_or_ge fuel (n + 1) with hlt | hge
    · exact (fuel_stable heap options n).1 id st r (ih (Nat.lt_succ_iff.mp hlt))
    · have : fuel = n + 1 := Nat.le_antisymm hle hge
      rw [← this]
      exact h

theorem arr_fuel_le (heap : Heap) (options : RedactionOptions)
    {fuel fuel' : Nat} (hle : fuel ≤ fuel') (elems : List Nat) (st : RedactionState)
    (acc : List RValue) (rep : RedactionReport)
    (r : (List RValue × RedactionReport) × RedactionState)
    (h : redactArrayElems fuel heap options elems st acc rep = some r) :
    redactArrayElems fuel' heap options elems st acc rep = some r := by
  induction fuel' with
  | zero =>
    have : fuel = 0 := Nat.le_zero.mp hle
    rw [← this]
    exact h
  | succ n ih =>
    rcases Nat.lt_or_ge fuel (n + 1) with hlt | hge
    · exact (fuel_stable heap options n).2.1 elems st acc rep r (ih (Nat.lt_succ_iff.mp hlt))
    · have : fuel = n + 1 := Nat.le_antisymm hle hge
      rw [← this]
      exact h

theorem obj_fuel_le (heap : Heap) (options : RedactionOptions)
    {fuel fuel' : Nat} (hle : fuel ≤ fuel') (fields : List (String × Nat))
    (st : RedactionState) (acc : List (String × RValue)) (rep : RedactionReport)
    (r : (List (String × RValue) × RedactionReport) × RedactionState)
    (h : redactObjectFields fuel heap options fields st acc rep = some r) :
    redactObjectFields fuel' heap options fields st acc rep = some r := by
  induction fuel' with
  | zero =>
    have : fuel = 0 := Nat.le_zero.mp hle
    rw [← this]
    exact h
  | succ n ih =>
    rcases Nat.lt_or_ge fuel (n + 1) with hlt | hge
    · exact (fuel_stable heap options n).2.2 fields st acc rep r (ih (Nat.lt_succ_iff.mp hlt))
    · have : fuel = n + 1 := Nat.le_antisymm hle hge
      rw [← this]
      exact h

theorem redact_total (heap : Heap) (options : RedactionOptions) : ∀ n : Nat,
    (∀ id st, unvisitedCount heap st.seen ≤ n →
      ∃ fuel, (redactValueWithState fuel heap options id st).isSome = true) ∧
    (∀ elems st acc rep, unvisitedCount heap st.seen ≤ n →
      ∃ fuel, (redactArrayElems fuel heap options elems st acc rep).isSome = true) ∧
    (∀ fields st acc rep, unvisitedCount heap st.seen ≤ n →
      ∃ fuel, (redactObjectFields fuel heap options fields st acc rep).isSome = true) := by
  intro n
  induction n using Nat.strong_induction_on with
  | _ n ih =>
  have hA : ∀ id st, unvisitedCount heap st.seen ≤ n →
      ∃ fuel, (redactValueWithState fuel heap options id st).isSome = true := by
    intro id st hcount
    by_cases hoff : options.mode = RedactionMode.off
    · exact ⟨1, by unfold redactValueWithState; rw [if_pos hoff]; rfl⟩
    · cases hg : heap.get? id with
      | none =>
        exact ⟨1, by unfold redactValueWithState; rw [if_neg hoff, hg]; rfl⟩
      | some node =>
        cases node with
        | hstr s =>
          exact ⟨1, by unfold redactValueWithState; rw [if_neg hoff, hg]; rfl⟩
        | hprim =>
          exact ⟨1, by unfold redactValueWithState; rw [if_neg hoff, hg]; rfl⟩
        | harr elems =>
          by_cases hseen : st.seen.contains id = true
          · exact ⟨1, by
              unfold redactValueWithState
              rw [if_neg hoff, hg]
              dsimp only
              rw [if_pos hseen]
              rfl⟩
          · have hc : containerAt heap id = true := by
              unfold containerAt
              rw [hg]
            have hseen' : st.seen.contains id = false := by
              cases hq : st.seen.contains id
              · rfl
              · exact absurd hq hseen
            have hdec := unvisited_strict heap st.seen id hc hseen'
            have hlt : unvisitedCount heap (st.seen ++ [id]) < n :=
              lt_of_lt_of_le hdec hcount
            obtain ⟨fuel, hf⟩ := (ih _ hlt).2.1 elems
              { seen := st.seen ++ [id], out := outSet st.out id (.oarr []) }
              [] emptyReport (le_refl _)
            cases hr : redactArrayElems fuel heap options elems
                { seen := st.seen ++ [id], out := outSet st.out id (.oarr []) }
                [] emptyReport with
            | none => rw [hr] at hf; exact absurd hf (by simp)
            | some r2 =>
              obtain ⟨⟨vals, report⟩, st2⟩ := r2
              refine ⟨fuel + 1, ?_⟩
              unfold redactValueWithState
              rw [if_neg hoff, hg]
              dsimp only
              rw [if_neg hseen, hr]
              rfl
        | hobj fields =>
          by_cases hseen : st.seen.contains id = true
          · exact ⟨1, by
              unfold redactValueWithState
              rw [if_neg hoff, hg]
              dsimp only
              rw [if_pos hseen]
              rfl⟩
          · have hc : containerAt heap id = true := by
              unfold containerAt
              rw [hg]
            have hseen' : st.seen.contains id = false := by
              cases hq : st.seen.contains id
              · rfl
              · exact absurd hq hseen
            have hdec := unvisited_strict heap st.seen id hc hseen'
            have hlt : unvisitedCount heap (st.seen ++ [id]) < n :=
              lt_of_lt_of_le hdec hcount
            obtain ⟨fuel, hf⟩ := (ih _ hlt).2.2 fields
              { seen := st.seen ++ [id], out := outSet st.out id (.oobj []) }
              [] emptyReport (le_refl _)
            cases hr : redactObjectFields fuel heap options fields
                { seen := st.seen ++ [id], out := outSet st.out id (.oobj []) }
                [] emptyReport with
            | none => rw [hr] at hf; exact absurd hf (by simp)
            | some r2 =>
              obtain ⟨⟨vals, report⟩, st2⟩ := r2
              refine ⟨fuel + 1, ?_⟩
              unfold redactValueWithState
              rw [if_neg hoff, hg]
              dsimp only
              rw [if_neg hseen, hr]
              rfl
  have hB : ∀ elems st acc rep, unvisitedCount heap st.seen ≤ n →
      ∃ fuel, (redactArrayElems fuel heap options elems st acc rep).isSome = true := by
    intro elems
    induction elems with
    | nil => exact fun st acc rep _ => ⟨1, rfl⟩
    | cons e rest ihrest =>
      intro st acc rep hcount
      obtain ⟨fuel1, hf1⟩ := hA e st hcount
      cases h1 : redactValueWithState fuel1 heap options e st with
      | none => rw [h1] at hf1; exact absurd hf1 (by simp)
      | some r1 =>
        obtain ⟨⟨v, r⟩, st1⟩ := r1
        obtain ⟨ext, hext⟩ := (seen_mono heap options fuel1).1 e st _ _ h1
        have hcount1 : unvisitedCount heap st1.seen ≤ n := by
          rw [hext]
          exact le_trans (unvisited_mono heap st.seen ext) hcount
        obtain ⟨fuel2, hf2⟩ := ihrest st1 (acc ++ [v]) (mergeReports rep r) hcount1
        cases h2 : redactArrayElems fuel2 heap options rest st1 (acc ++ [v])
            (mergeReports rep r) with
        | none => rw [h2] at hf2; exact absurd hf2 (by simp)
        | some r2 =>
          refine ⟨max fuel1 fuel2 + 1, ?_⟩
          unfold redactArrayElems
          rw [value_fuel_le heap options (le_max_left fuel1 fuel2) e st _ h1]
          dsimp only
          rw [arr_fuel_le heap options (le_max_right fuel1 fuel2) rest st1 _ _ _ h2]
          rfl
  have hC : ∀ fields st acc rep, unvisitedCount heap st.seen ≤ n →
      ∃ fuel, (redactObjectFields fuel heap options fields st acc rep).isSome = true := by
    intro fields
    induction fields with
    | nil => exact fun st acc rep _ => ⟨1, rfl⟩
    | cons f rest ihrest =>
      obtain ⟨k, v⟩ := f
      intro st acc rep hcount
      obtain ⟨fuel1, hf1⟩ := hA v st hcount
      cases h1 : redactValueWithState fuel1 heap options v st with
      | none => rw [h1] at hf1; exact absurd hf1 (by simp)
      | some r1 =>
        obtain ⟨⟨rv, r⟩, st1⟩ := r1
        obtain ⟨ext, hext⟩ := (seen_mono heap options fuel1).1 v st _ _ h1
        have hcount1 : unvisitedCount heap st1.seen ≤ n := by
          rw [hext]
          exact le_trans (unvisited_mono heap st.seen ext) hcount
        obtain ⟨fuel2, hf2⟩ := ihrest st1 (acc ++ [(k, rv)]) (mergeReports rep r) hcount1
        cases h2 : redactObjectFields fuel2 heap options rest st1 (acc ++ [(k, rv)])
            (mergeReports rep r) with
        | none => rw [h2] at hf2; exact absurd hf2 (by simp)
        | some r2 =>
          refine ⟨max fuel1 fuel2 + 1, ?_⟩
          unfold redactObjectFields
          rw [value_fuel_le heap options (le_max_left fuel1 fuel2) v st _ h1]
          dsimp only
          rw [obj_fuel_le heap options (le_max_right fuel1 fuel2) rest st1 _ _ _ h2]
          rfl
  exact ⟨hA, hB, hC⟩

/-- C8: deep redaction is total on cyclic inputs. For every heap (object
graph, cycles allowed), options and root, some finite fuel makes
`redactValueGraph` return a result; a re-encountered container (already
in the cycle table) immediately yields a reference to its
already-allocated counterpart with an empty sub-report and an unchanged
state; and on the concrete self-referential heap `cycHeap` the output
counterpart of node 0 holds `self ↦ rref 0` — the cycle topology is
preserved. -/
theorem redactValueGraph_cycle_safe (heap : Heap) (options : RedactionOptions)
    (root : Nat) :
    (∃ fuel, (redactValueGraph fuel heap options root).isSome = true) ∧
    (∀ fuel id st, containerAt heap id = true → st.seen.contains id = true →
      redactValueWithState (fuel + 1) heap options id st
        = some ((.rref id, emptyReport), st)) ∧
    redactValueGraph 4 cycHeap {} 0
      = some ((.rref 0, { redacted := false, matchList := [] }),
          { seen := [0]
            out := [(0, .oobj [("name", .rstr "root"), ("self", .rref 0)])] }) := by
  refine ⟨?_, ?_, by decide⟩
  · have h := (redact_total heap options (unvisitedCount heap [])).1 root
      { seen := [], out := [] } (le_refl _)
    exact h
  · intro fuel id st hc hseen
    unfold containerAt at hc
    unfold redactValueWithState
    by_cases hoff : options.mode = RedactionMode.off
    · rw [if_pos hoff]
    · rw [if_neg hoff]
      cases hg : heap.get? id with
      | none => rw [hg] at hc; simp at hc
      | some node =>
        rw [hg] at hc
        cases node with
        | hstr s => simp at hc
        | hprim => simp at hc
        | harr elems =>
          dsimp only
          rw [if_pos hseen]
        | hobj fields =>
          dsimp only
          rw [if_pos hseen]

theorem redactValueGraph_cycle_safe_witness :
    redactValueWithState 1 cycHeap {} 0 { seen := [0], out := [(0, .oobj [])] }
      = some ((.rref 0, emptyReport), { seen := [0], out := [(0, .oobj [])] }) :=
  (redactValueGraph_cycle_safe cycHeap {} 0).2.1 0 0
    { seen := [0], out := [(0, .oobj [])] } (by decide) (by decide)

end Firewall


